import Mathlib

/-!
# github-todoist-sync: the reconciliation engine

A shallow embedding of `internal/sync/service.go` and of the two helpers of
`internal/todoist/client.go` it relies on (`GetLabelPriority`,
`FormatGitHubReference`), together with the parts of the Go standard library
these functions call (`strings.Index`, `strings.Contains`, `strings.Split`,
`strings.ToLower`, `strings.ReplaceAll`, `strconv.Atoi`, `fmt`'s `%d`).

Modelling conventions.

* A Go `string` is a `List Char`: the sequence of its code points.  Every string
  the engine sees was decoded from JSON, hence is valid UTF-8, and on valid
  UTF-8 a byte-wise search for an ASCII pattern and a search on code points
  find the same occurrences.
* A Go `int` is an `Int` lying in the 64-bit range `GoInt`; `strconv.Atoi`
  reports a range error outside of it.
* A Go `error` is its message, a string.
* The remote services are a `Gateway`: a state type with one transition per
  client method.  Every service function returns its result, the next remote
  state and the list of gateway calls it issued, oldest first.
* `log.Printf` lines are not modelled.
-/

namespace GithubTodoistSync

/-- Go strings, as sequences of code points. -/
abbrev Str := List Char

/-- The range of a Go `int` on a 64-bit platform. -/
def GoInt (n : Int) : Prop := -(2 : Int) ^ 63 ≤ n ∧ n < (2 : Int) ^ 63

instance (n : Int) : Decidable (GoInt n) := by unfold GoInt; exact inferInstance

/-! ## The Go standard library functions used by the engine -/

/-- Go `strings.Index`: the position of the first occurrence of `substr` in `s`. -/
def Index (s substr : Str) : Option Nat :=
  match s with
  | [] => if substr.isPrefixOf [] then some 0 else none
  | c :: t => if substr.isPrefixOf (c :: t) then some 0 else (Index t substr).map (· + 1)

/-- Go `strings.Contains`. -/
def Contains (s substr : Str) : Bool := (Index s substr).isSome

/-- The loop of Go's `strings.genSplit` for a non-empty separator: cut at the first
occurrence of `sep`, continue behind it.  The first argument bounds the number of
cuts, as the pre-computed piece count does in Go. -/
def genSplit (sep : Str) : Nat → Str → List Str
  | 0, s => [s]
  | n + 1, s =>
    match Index s sep with
    | none => [s]
    | some m => s.take m :: genSplit sep n (s.drop (m + sep.length))

/-- Go `strings.Split`.  An empty separator explodes the string into its code
points; otherwise the string is cut at every non-overlapping occurrence of the
separator, scanning from the left.  A string has at most `s.length` such
occurrences, so the bound never stops the loop early (`genSplit_fuel`). -/
def Split (s sep : Str) : List Str :=
  if sep.isEmpty then s.map (fun c => [c]) else genSplit sep s.length s

/-- The value of a decimal digit character (`ch - '0'` in Go). -/
def digitVal (c : Char) : Nat := c.toNat - 48

/-- The unsigned part of `strconv.Atoi`: a non-empty run of decimal digits. -/
def parseDigits (s : Str) : Option Nat :=
  if s.isEmpty then none
  else if s.all Char.isDigit then some (s.foldl (fun n c => n * 10 + digitVal c) 0)
  else none

/-- Go `strconv.Atoi` on a 64-bit platform: an optional sign followed by a
non-empty run of decimal digits whose value fits an `int`; `none` stands for
the syntax and range errors. -/
def Atoi (s : Str) : Option Int :=
  match s with
  | [] => none
  | c :: t =>
    if c = '-' then
      match parseDigits t with
      | some n => if n ≤ 2 ^ 63 then some (-(n : Int)) else none
      | none => none
    else
      match parseDigits (if c = '+' then t else c :: t) with
      | some n => if n < 2 ^ 63 then some (n : Int) else none
      | none => none

/-- The digit loop of `fmt`: the decimal digits of `n` pushed in front of `acc`. -/
def fmtDigits : Nat → Nat → Str → Str
  | 0, _, acc => acc
  | fuel + 1, n, acc =>
    if n / 10 = 0 then Char.ofNat (48 + n % 10) :: acc
    else fmtDigits fuel (n / 10) (Char.ofNat (48 + n % 10) :: acc)

/-- The verb `%d` of `fmt.Sprintf` applied to an `int`. -/
def fmtInt (n : Int) : Str :=
  if n < 0 then '-' :: fmtDigits (n.natAbs + 1) n.natAbs []
  else fmtDigits (n.natAbs + 1) n.natAbs []

/-- ASCII lower-casing of one character, the fast path of `strings.ToLower`. -/
def asciiLower (c : Char) : Char :=
  if 'A' ≤ c ∧ c ≤ 'Z' then Char.ofNat (c.toNat + 32) else c

/-- Go `strings.ToLower`.  A string of ASCII characters is lower-cased letter by
letter; any other string is mapped through `unicode.ToLower`, whose case tables
are the parameter `unicodeToLower`. -/
def ToLower (unicodeToLower : Char → Char) (s : Str) : Str :=
  if s.all (fun c => decide (c.toNat < 128)) then s.map asciiLower
  else s.map unicodeToLower

/-- Go `strings.ReplaceAll` for a one-character pattern and replacement. -/
def ReplaceAllChar (s : Str) (old new : Char) : Str :=
  s.map (fun c => if c = old then new else c)

/-! ## `internal/todoist/client.go` -/

/-- The literal that introduces a marker. -/
def marker : Str := "GitHub Issue #".toList

/-- `FormatGitHubReference`: `fmt.Sprintf("GitHub Issue #%d: %s", issueNumber, url)`. -/
def FormatGitHubReference (issueNumber : Int) (url : Str) : Str :=
  marker ++ fmtInt issueNumber ++ ": ".toList ++ url

/-- The table `priorityMap` of `GetLabelPriority`. -/
def priorityMap (key : Str) : Option Int :=
  if key = "urgent".toList then some 4
  else if key = "high".toList then some 3
  else if key = "medium".toList then some 2
  else if key = "low".toList then some 1
  else none

/-- `GetLabelPriority`: the table value of the first label whose lower-cased
form is a key of the table, 1 without such a label. -/
def GetLabelPriority (lower : Char → Char) : List Str → Int
  | [] => 1
  | label :: rest =>
    match priorityMap (ToLower lower label) with
    | some priority => priority
    | none => GetLabelPriority lower rest

/-! ## `internal/sync/service.go`: the pure helpers -/

/-- `extractGitHubIssueNumber`. -/
def extractGitHubIssueNumber (description : Str) : Int :=
  if Contains description marker then
    let parts := Split description marker
    if parts.length > 1 then
      let numberPart := (Split (parts.getD 1 []) ":".toList).headD []
      match Atoi numberPart with
      | some number => number
      | none => 0
    else 0
  else 0

/-- `convertLabels`. -/
def convertLabels (lower : Char → Char) : List Str → List Str
  | [] => []
  | label :: rest =>
    let cleanLabel := ReplaceAllChar (ReplaceAllChar (ToLower lower label) ' ' '_') '-' '_'
    if cleanLabel ≠ [] then cleanLabel :: convertLabels lower rest
    else convertLabels lower rest

/-! ## The data model -/

/-- The fields of `github.Issue` the engine reads (the time stamps are left out). -/
structure Issue where
  ID : Int
  Number : Int
  Title : Str
  Body : Str
  State : Str
  Labels : List Str
  Assignee : Str
  HTMLURL : Str
  IsPullReq : Bool
  deriving DecidableEq

/-- The fields of `todoist.Task` the engine reads or writes. -/
structure Task where
  ID : Str
  ProjectID : Str
  Content : Str
  Description : Str
  IsCompleted : Bool
  Labels : List Str
  Priority : Int
  deriving DecidableEq

/-- The fields of `todoist.CreateTaskRequest` that `createTodoistTask` fills in. -/
structure CreateTaskRequest where
  Content : Str
  Description : Str
  ProjectID : Str
  Priority : Int
  Labels : List Str
  deriving DecidableEq

/-- A value of the update payload `map[string]interface{}`. -/
inductive FieldValue where
  | str (s : Str)
  | int (n : Int)
  deriving DecidableEq

/-- The update payload `map[string]interface{}`: at most one entry per key. -/
abbrev Updates := List (Str × FieldValue)

/-- The map assignment `updates[key] = value`. -/
def Updates.set (updates : Updates) (key : Str) (value : FieldValue) : Updates :=
  if updates.any (fun kv => decide (kv.1 = key)) then
    updates.map (fun kv => if kv.1 = key then (key, value) else kv)
  else updates ++ [(key, value)]

/-- The map read `updates[key]`. -/
def Updates.get (updates : Updates) (key : Str) : Option FieldValue :=
  (updates.find? (fun kv => decide (kv.1 = key))).map (fun kv => kv.2)

/-- A call of a client method, with its arguments. -/
inductive Call where
  | GetIssues
  | GetIssue (number : Int)
  | UpdateIssueState (number : Int) (state : Str)
  | GetTasks (projectID : Str)
  | CreateTask (task : CreateTaskRequest)
  | UpdateTask (taskID : Str) (updates : Updates)
  | CloseTask (taskID : Str)
  | ReopenTask (taskID : Str)
  deriving DecidableEq

/-- The two remote services as seen through `github.Client` and `todoist.Client`:
each method answers from the remote state and moves it.  An `error` result is
`none` for `nil` and `some message` otherwise. -/
structure Gateway (σ : Type) where
  GetIssues : σ → Except Str (List Issue) × σ
  GetIssue : Int → σ → Except Str Issue × σ
  UpdateIssueState : Int → Str → σ → Option Str × σ
  GetTasks : Str → σ → Except Str (List Task) × σ
  CreateTask : CreateTaskRequest → σ → Except Str Task × σ
  UpdateTask : Str → Updates → σ → Option Str × σ
  CloseTask : Str → σ → Option Str × σ
  ReopenTask : Str → σ → Option Str × σ

/-- The `Service` of `service.go`: its two clients, the ID of the project resolved at
construction, and the case tables of the runtime. -/
structure Service (σ : Type) where
  remote : Gateway σ
  projectID : Str
  lower : Char → Char

/-- What running a service function yields: its return value, the remote state it
leaves, and the gateway calls it issued, oldest first. -/
structure Outcome (σ α : Type) where
  result : α
  state : σ
  calls : List Call

/-! ## `internal/sync/service.go`: the passes -/

/-- `createTodoistTask`. -/
def createTodoistTask {σ : Type} (s : Service σ) (issue : Issue) (w : σ) :
    Outcome σ (Option Str) :=
  let task : CreateTaskRequest :=
    { Content := issue.Title
      Description := FormatGitHubReference issue.Number issue.HTMLURL
      ProjectID := s.projectID
      Priority := GetLabelPriority s.lower issue.Labels
      Labels := convertLabels s.lower issue.Labels }
  let r := s.remote.CreateTask task w
  { result := match r.1 with
      | Except.ok _ => none
      | Except.error e => some e
    state := r.2
    calls := [Call.CreateTask task] }

/-- The payload `updateTodoistTask` collects before it looks at the state. -/
def collectUpdates (lower : Char → Char) (task : Task) (issue : Issue) : Updates :=
  let updates : Updates := []
  let updates :=
    if task.Content ≠ issue.Title then updates.set "content".toList (FieldValue.str issue.Title)
    else updates
  let newPriority := GetLabelPriority lower issue.Labels
  if task.Priority ≠ newPriority then updates.set "priority".toList (FieldValue.int newPriority)
  else updates

/-- `updateTodoistTask`. -/
def updateTodoistTask {σ : Type} (s : Service σ) (task : Task) (issue : Issue) (w : σ) :
    Outcome σ (Option Str) :=
  let updates := collectUpdates s.lower task issue
  let shouldBeClosed : Bool := decide (issue.State = "closed".toList)
  if task.IsCompleted ≠ shouldBeClosed then
    if shouldBeClosed then
      let r := s.remote.CloseTask task.ID w
      { result := r.1, state := r.2, calls := [Call.CloseTask task.ID] }
    else
      let r := s.remote.ReopenTask task.ID w
      { result := r.1, state := r.2, calls := [Call.ReopenTask task.ID] }
  else if updates.length > 0 then
    let r := s.remote.UpdateTask task.ID updates w
    { result := r.1, state := r.2, calls := [Call.UpdateTask task.ID updates] }
  else { result := none, state := w, calls := [] }

/-- `syncTaskStateToGitHub`. -/
def syncTaskStateToGitHub {σ : Type} (s : Service σ) (task : Task) (issue : Issue) (w : σ) :
    Outcome σ (Option Str) :=
  if task.IsCompleted = true ∧ issue.State = "open".toList then
    let r := s.remote.UpdateIssueState issue.Number "closed".toList w
    { result := r.1, state := r.2,
      calls := [Call.UpdateIssueState issue.Number "closed".toList] }
  else if task.IsCompleted = false ∧ issue.State = "closed".toList then
    let r := s.remote.UpdateIssueState issue.Number "open".toList w
    { result := r.1, state := r.2,
      calls := [Call.UpdateIssueState issue.Number "open".toList] }
  else { result := none, state := w, calls := [] }

/-- The map `taskMap` of `SyncFromGitHub`, from issue numbers to tasks. -/
abbrev TaskMap := Int → Option Task

/-- The first loop of `SyncFromGitHub`: every task whose description parses to a
non-zero number is stored under that number, a later task replacing an earlier one. -/
def buildTaskMap (existingTasks : List Task) : TaskMap :=
  existingTasks.foldl
    (fun taskMap task =>
      let issueNum := extractGitHubIssueNumber task.Description
      if issueNum ≠ 0 then fun k => if k = issueNum then some task else taskMap k
      else taskMap)
    (fun _ => none)

/-- The body of the second loop of `SyncFromGitHub` for one issue; the result tells
whether `syncedCount` is incremented. -/
def forwardStep {σ : Type} (s : Service σ) (taskMap : TaskMap) (issue : Issue) (w : σ) :
    Outcome σ Bool :=
  if issue.IsPullReq then { result := false, state := w, calls := [] }
  else
    match taskMap issue.Number with
    | none =>
      let o := createTodoistTask s issue w
      { result := o.result.isNone, state := o.state, calls := o.calls }
    | some existingTask =>
      let o := updateTodoistTask s existingTask issue w
      { result := false, state := o.state, calls := o.calls }

/-- The second loop of `SyncFromGitHub`, with `syncedCount` as its result. -/
def forwardLoop {σ : Type} (s : Service σ) (taskMap : TaskMap) :
    List Issue → Nat → σ → Outcome σ Nat
  | [], syncedCount, w => { result := syncedCount, state := w, calls := [] }
  | issue :: rest, syncedCount, w =>
    let o := forwardStep s taskMap issue w
    let o2 := forwardLoop s taskMap rest (if o.result then syncedCount + 1 else syncedCount)
      o.state
    { result := o2.result, state := o2.state, calls := o.calls ++ o2.calls }

/-- `SyncFromGitHub`, the forward pass. -/
def SyncFromGitHub {σ : Type} (s : Service σ) (w : σ) : Outcome σ (Option Str) :=
  let r1 := s.remote.GetIssues w
  match r1.1 with
  | Except.error e =>
    { result := some ("chyba při získávání GitHub issues: ".toList ++ e), state := r1.2,
      calls := [Call.GetIssues] }
  | Except.ok issues =>
    let r2 := s.remote.GetTasks s.projectID r1.2
    match r2.1 with
    | Except.error e =>
      { result := some ("chyba při získávání Todoist úkolů: ".toList ++ e), state := r2.2,
        calls := [Call.GetIssues, Call.GetTasks s.projectID] }
    | Except.ok existingTasks =>
      let o := forwardLoop s (buildTaskMap existingTasks) issues 0 r2.2
      { result := none, state := o.state,
        calls := [Call.GetIssues, Call.GetTasks s.projectID] ++ o.calls }

/-- The body of the loop of `SyncToGitHub` for one task; the result tells whether
`syncedCount` is incremented. -/
def reverseStep {σ : Type} (s : Service σ) (task : Task) (w : σ) : Outcome σ Bool :=
  let issueNumber := extractGitHubIssueNumber task.Description
  if issueNumber = 0 then { result := false, state := w, calls := [] }
  else
    let r := s.remote.GetIssue issueNumber w
    match r.1 with
    | Except.error _ => { result := false, state := r.2, calls := [Call.GetIssue issueNumber] }
    | Except.ok issue =>
      let o := syncTaskStateToGitHub s task issue r.2
      { result := o.result.isNone, state := o.state,
        calls := Call.GetIssue issueNumber :: o.calls }

/-- The loop of `SyncToGitHub`, with `syncedCount` as its result. -/
def reverseLoop {σ : Type} (s : Service σ) : List Task → Nat → σ → Outcome σ Nat
  | [], syncedCount, w => { result := syncedCount, state := w, calls := [] }
  | task :: rest, syncedCount, w =>
    let o := reverseStep s task w
    let o2 := reverseLoop s rest (if o.result then syncedCount + 1 else syncedCount) o.state
    { result := o2.result, state := o2.state, calls := o.calls ++ o2.calls }

/-- `SyncToGitHub`, the reverse pass. -/
def SyncToGitHub {σ : Type} (s : Service σ) (w : σ) : Outcome σ (Option Str) :=
  let r := s.remote.GetTasks s.projectID w
  match r.1 with
  | Except.error e =>
    { result := some ("chyba při získávání Todoist úkolů: ".toList ++ e), state := r.2,
      calls := [Call.GetTasks s.projectID] }
  | Except.ok tasks =>
    let o := reverseLoop s tasks 0 r.2
    { result := none, state := o.state, calls := Call.GetTasks s.projectID :: o.calls }

/-- `FullSync`: the forward pass, then the reverse pass. -/
def FullSync {σ : Type} (s : Service σ) (w : σ) : Outcome σ (Option Str) :=
  let o1 := SyncFromGitHub s w
  match o1.result with
  | some e =>
    { result := some ("chyba při synchronizaci GitHub → Todoist: ".toList ++ e),
      state := o1.state, calls := o1.calls }
  | none =>
    let o2 := SyncToGitHub s o1.state
    match o2.result with
    | some e =>
      { result := some ("chyba při synchronizaci Todoist → GitHub: ".toList ++ e),
        state := o2.state, calls := o1.calls ++ o2.calls }
    | none => { result := none, state := o2.state, calls := o1.calls ++ o2.calls }

/-! ## A remote in which every call takes effect -/

/-- The state of the two services: the issues of the repository, the tasks of the
target project, and a counter for the IDs of new tasks. -/
structure Remote where
  issues : List Issue
  tasks : List Task
  nextID : Nat
  deriving DecidableEq

/-- The effect of an update payload on a task. -/
def applyUpdates (updates : Updates) (t : Task) : Task :=
  let t :=
    match updates.get "content".toList with
    | some (FieldValue.str c) => { t with Content := c }
    | _ => t
  match updates.get "priority".toList with
  | some (FieldValue.int p) => { t with Priority := p }
  | _ => t

/-- The task a create request adds to the project. -/
def createdTask (id : Nat) (req : CreateTaskRequest) : Task :=
  { ID := 'n' :: fmtInt (id : Int)
    ProjectID := req.ProjectID
    Content := req.Content
    Description := req.Description
    IsCompleted := false
    Labels := req.Labels
    Priority := req.Priority }

/-- A remote in which every call succeeds and takes effect: a create adds to the
project a task carrying the fields of the request, an update rewrites the named
fields, close and reopen set the completion flag, and a state update rewrites the
state of the issue.  Only fetching an issue that does not exist fails. -/
def idealRemote : Gateway Remote where
  GetIssues w := (Except.ok w.issues, w)
  GetIssue n w :=
    match w.issues.find? (fun i => decide (i.Number = n)) with
    | some i => (Except.ok i, w)
    | none => (Except.error "404 Not Found".toList, w)
  UpdateIssueState n st w :=
    (none, { w with issues := w.issues.map (fun i => if i.Number = n then { i with State := st } else i) })
  GetTasks _ w := (Except.ok w.tasks, w)
  CreateTask req w :=
    (Except.ok (createdTask w.nextID req),
      { w with tasks := w.tasks ++ [createdTask w.nextID req], nextID := w.nextID + 1 })
  UpdateTask id updates w :=
    (none, { w with tasks := w.tasks.map (fun t => if t.ID = id then applyUpdates updates t else t) })
  CloseTask id w :=
    (none, { w with tasks := w.tasks.map (fun t => if t.ID = id then { t with IsCompleted := true } else t) })
  ReopenTask id w :=
    (none, { w with tasks := w.tasks.map (fun t => if t.ID = id then { t with IsCompleted := false } else t) })

/-- The create requests among a list of calls, in order. -/
def createRequests : List Call → List CreateTaskRequest
  | [] => []
  | Call.CreateTask req :: rest => req :: createRequests rest
  | _ :: rest => createRequests rest

/-- Whether some fetched task is linked to issue number `n`: its description parses
to `n`, where a parse result of 0 means "unlinked". -/
def hasLinkedTask (tasks : List Task) (n : Int) : Bool :=
  tasks.any (fun t => decide (extractGitHubIssueNumber t.Description ≠ 0 ∧
    extractGitHubIssueNumber t.Description = n))

/-! ## Invariants of the remote state -/

/-- The task a call acts on, for the three calls that change a task. -/
def Call.taskID : Call → Option Str
  | Call.UpdateTask taskID _ => some taskID
  | Call.CloseTask taskID => some taskID
  | Call.ReopenTask taskID => some taskID
  | _ => none

/-- Every task of the project whose description parses to `n` has the ID `tid`. -/
def MarkerOwnedBy (n : Int) (tid : Str) (st : Remote) : Prop :=
  ∀ t ∈ st.tasks, extractGitHubIssueNumber t.Description = n → t.ID = tid

/-- Every task of the project with the ID `tid` is open. -/
def TaskOpen (tid : Str) (st : Remote) : Prop :=
  ∀ t ∈ st.tasks, t.ID = tid → t.IsCompleted = false

/-- Every issue of the repository with the number `n` is open. -/
def IssueOpen (n : Int) (st : Remote) : Prop :=
  ∀ i ∈ st.issues, i.Number = n → i.State = "open".toList

/-! ## Sample data -/

/-- A service over the remote in which every call takes effect. -/
def sampleService : Service Remote :=
  { remote := idealRemote, projectID := "P1".toList, lower := Char.toLower }

/-- An issue with the given number, state, labels and pull-request flag. -/
def sampleIssue (number : Int) (state : Str) (labels : List Str) (isPullReq : Bool) : Issue :=
  { ID := 1000 + number, Number := number, Title := "Fix the build".toList, Body := [],
    State := state, Labels := labels, Assignee := [],
    HTMLURL := "https://github.com/o/r/issues/".toList ++ fmtInt number, IsPullReq := isPullReq }

/-- A task of the target project with the given ID, description, completion flag
and priority. -/
def sampleTask (id description : Str) (isCompleted : Bool) (priority : Int) : Task :=
  { ID := id, ProjectID := "P1".toList, Content := "Fix the build".toList,
    Description := description, IsCompleted := isCompleted, Labels := [], Priority := priority }

/-- A remote with an open issue 7 without a task, a pull request 8, and an open
issue 9 that has a task. -/
def sampleRemote : Remote :=
  { issues := [sampleIssue 7 "open".toList ["urgent".toList] false,
      sampleIssue 8 "open".toList [] true,
      sampleIssue 9 "open".toList [] false]
    tasks := [sampleTask "t9".toList "GitHub Issue #9: https://github.com/o/r/issues/9".toList
      false 1]
    nextID := 0 }

/-- A remote for the reverse pass: issue 7 is open and its task completed, issue 9 is
closed and its task open, issue 3 is closed and its task completed, and one task
carries no marker. -/
def sampleReverseRemote : Remote :=
  { issues := [sampleIssue 7 "open".toList [] false, sampleIssue 9 "closed".toList [] false,
      sampleIssue 3 "closed".toList [] false]
    tasks := [sampleTask "t7".toList "GitHub Issue #7: https://github.com/o/r/issues/7".toList
        true 1,
      sampleTask "t0".toList "buy milk".toList true 1,
      sampleTask "t9".toList "GitHub Issue #9: https://github.com/o/r/issues/9".toList false 1,
      sampleTask "t3".toList "GitHub Issue #3: https://github.com/o/r/issues/3".toList true 1]
    nextID := 0 }

/-- A remote with one open issue 7 labelled `urgent` and its task, completed and
still of priority 1. -/
def samplePrecedenceRemote : Remote :=
  { issues := [sampleIssue 7 "open".toList ["urgent".toList] false]
    tasks := [sampleTask "t7".toList "GitHub Issue #7: https://github.com/o/r/issues/7".toList
      true 1]
    nextID := 0 }

/-- A service whose task list cannot be fetched; every other call takes effect. -/
def sampleOutageService : Service Remote :=
  { remote :=
      { idealRemote with
        GetTasks := fun _ w => (Except.error "503 Service Unavailable".toList, w) }
    projectID := "P1".toList
    lower := Char.toLower }

/-- A remote whose only issue, number 5, is an open pull request, with a completed
task that carries the marker of number 5. -/
def samplePullRequestRemote : Remote :=
  { issues := [sampleIssue 5 "open".toList [] true]
    tasks := [sampleTask "t5".toList "GitHub Issue #5: https://github.com/o/r/pull/5".toList
      true 1]
    nextID := 0 }

/-! ## Definitions used in the statements about marker parsing -/

/-- The text of `s` in front of the first occurrence of `sep`; all of `s` when
`sep` does not occur. -/
def firstPiece (sep s : Str) : Str :=
  match Index s sep with
  | none => s
  | some m => s.take m

/-- Marker parsing in the words of the specification: without the literal
`GitHub Issue #` the task is unlinked (0); otherwise the text behind the literal up
to, but not including, the first colon is read as a base-10 integer, and a text that
does not parse leaves the task unlinked. -/
def parseMarkerSpec (description : Str) : Int :=
  match Index description marker with
  | none => 0
  | some m => (Atoi ((description.drop (m + marker.length)).takeWhile (· ≠ ':'))).getD 0

/-! ## Definitions used in the statements about the linked task and the labels -/

/-- The text `GitHub Issue #<n>:` of issue number `n`. -/
def markerText (n : Int) : Str := marker ++ fmtInt n ++ ":".toList

/-- The linked task in the words of the specification: the first task, in fetched
order, whose description contains the text `GitHub Issue #<n>:`. -/
def linkedTaskSpec (tasks : List Task) (n : Int) : Option Task :=
  tasks.find? (fun t => Contains t.Description (markerText n))

/-- Label cleaning in the words of the specification, for one character of a
lower-cased label: a space or a hyphen becomes an underscore. -/
def cleanChar (c : Char) : Char := if c = ' ' ∨ c = '-' then '_' else c

/-- A remote in which two open tasks carry the marker of the closed issue 7. -/
def sampleDuplicateRemote : Remote :=
  { issues := [sampleIssue 7 "closed".toList [] false]
    tasks := [sampleTask "tA".toList "GitHub Issue #7: https://github.com/o/r/issues/7".toList
        false 1,
      sampleTask "tB".toList "GitHub Issue #7: https://github.com/o/r/issues/7".toList
        false 1]
    nextID := 0 }

/-- A task whose description names issue 12 first and issue 7 after it. -/
def sampleTwoMarkerTask : Task :=
  sampleTask "tC".toList "GitHub Issue #12: a, see GitHub Issue #7: b".toList false 1

/-- A task whose description carries the marker of issue 7 without the colon. -/
def sampleNoColonTask : Task :=
  sampleTask "tD".toList "GitHub Issue #7".toList false 1

/-! ## String lemmas -/

theorem isPrefixOf_eq_true_iff (p s : Str) : p.isPrefixOf s = true ↔ p <+: s := by
  simp [List.isPrefixOf_iff_prefix]

theorem Index_nil_of_ne_nil {p : Str} (hp : p ≠ []) : Index [] p = none := by
  cases p with
  | nil => exact absurd rfl hp
  | cons a t => simp [Index, List.isPrefixOf]

theorem Index_none_of_absent (p : Str) : ∀ s : Str, ¬ p <:+: s → Index s p = none
  | [], h => by
    have hp : p ≠ [] := by
      rintro rfl
      exact h List.nil_infix
    exact Index_nil_of_ne_nil hp
  | c :: t, h => by
    have h1 : ¬ p <+: c :: t := fun hpre => h hpre.isInfix
    have h2 : ¬ p <:+: t := fun hin => h (List.infix_cons hin)
    have h3 : p.isPrefixOf (c :: t) = false := by
      rw [Bool.eq_false_iff]
      intro hb
      exact h1 ((isPrefixOf_eq_true_iff _ _).1 hb)
    simp [Index, h3, Index_none_of_absent p t h2]

theorem Index_eq_some_of_first (p post : Str) (hp : p ≠ []) :
    ∀ pre : Str, ¬ p <:+: pre ++ p.dropLast → Index (pre ++ p ++ post) p = some pre.length
  | [], _ => by
    have hpre : p.isPrefixOf (p ++ post) = true :=
      (isPrefixOf_eq_true_iff _ _).2 (List.prefix_append _ _)
    cases hpp : p ++ post with
    | nil => simp_all
    | cons a t =>
      rw [hpp] at hpre
      have hpre2 := (isPrefixOf_eq_true_iff _ _).1 hpre
      show Index (p ++ post) p = some 0
      rw [hpp]
      simp [Index, hpre2]
  | a :: pre, h => by
    have h2 : ¬ p <:+: pre ++ p.dropLast := fun hin => h (List.infix_cons hin)
    have h3 : p.isPrefixOf (a :: (pre ++ p ++ post)) = false := by
      rw [Bool.eq_false_iff]
      intro hb
      have hpre : p <+: (a :: pre ++ p.dropLast) ++ (p.drop (p.length - 1) ++ post) := by
        have := (isPrefixOf_eq_true_iff _ _).1 hb
        have hsplit : p.dropLast ++ p.drop (p.length - 1) = p := by
          rw [List.dropLast_eq_take]
          exact List.take_append_drop _ _
        have heq : (a :: pre ++ p.dropLast) ++ (p.drop (p.length - 1) ++ post)
            = a :: (pre ++ p ++ post) := by
          rw [List.append_assoc, ← List.append_assoc p.dropLast, hsplit]
          simp
        rw [heq]
        exact this
      have hlen : p.length ≤ (a :: pre ++ p.dropLast).length := by
        simp only [List.length_append, List.length_cons, List.length_dropLast]
        omega
      have := List.prefix_of_prefix_length_le hpre (List.prefix_append _ _) hlen
      exact h this.isInfix
    have ih := Index_eq_some_of_first p post hp pre h2
    have hcons : (a :: pre) ++ p ++ post = a :: (pre ++ p ++ post) := by simp
    rw [hcons]
    have h4 : ¬ p <+: a :: (pre ++ (p ++ post)) := by
      intro hb
      rw [← List.append_assoc] at hb
      rw [(isPrefixOf_eq_true_iff _ _).2 hb] at h3
      exact absurd h3 (by simp)
    have ih2 : Index (pre ++ (p ++ post)) p = some pre.length := by
      rw [← List.append_assoc]; exact ih
    simp [Index, h4, ih2]

theorem Index_some_decomp (p : Str) : ∀ (s : Str) (m : Nat), Index s p = some m →
    ∃ post, s = s.take m ++ p ++ post ∧ s.drop (m + p.length) = post ∧ m + p.length ≤ s.length
  | [], m, h => by
    simp only [Index] at h
    split at h
    · rename_i hp
      have : p = [] := by
        have := (isPrefixOf_eq_true_iff _ _).1 hp
        simpa using this
      subst this
      simp at h
      subst h
      exact ⟨[], by simp⟩
    · exact absurd h (by simp)
  | c :: t, m, h => by
    simp only [Index] at h
    split at h
    · rename_i hp
      obtain ⟨post, hpost⟩ := (isPrefixOf_eq_true_iff _ _).1 hp
      simp at h
      subst h
      refine ⟨post, by simp [hpost], ?_, ?_⟩
      · rw [← hpost]; simp
      · rw [← hpost]; simp
    · cases hi : Index t p with
      | none => simp [hi] at h
      | some k =>
        simp [hi] at h
        subst h
        obtain ⟨post, h1, h2, h3⟩ := Index_some_decomp p t k hi
        refine ⟨post, ?_, ?_, ?_⟩
        · simp only [List.take_succ_cons, List.cons_append]
          rw [← h1]
        · rw [show k + 1 + p.length = (k + p.length) + 1 by omega]
          simpa using h2
        · simp; omega

theorem genSplit_ne_nil (sep : Str) (n : Nat) (s : Str) : genSplit sep n s ≠ [] := by
  cases n with
  | zero => simp [genSplit]
  | succ n =>
    simp only [genSplit]
    split <;> simp

/-- The bound of `genSplit` is immaterial once it reaches the length of the string. -/
theorem genSplit_fuel (sep : Str) (hsep : sep ≠ []) :
    ∀ (n k : Nat) (s : Str), s.length ≤ n → s.length ≤ k → genSplit sep n s = genSplit sep k s
  | 0, k, s, hn, _ => by
    have hs : s = [] := List.length_eq_zero.1 (Nat.le_zero.1 hn)
    subst hs
    cases k with
    | zero => rfl
    | succ k => simp [genSplit, Index_nil_of_ne_nil hsep]
  | n + 1, 0, s, _, hk => by
    have hs : s = [] := List.length_eq_zero.1 (Nat.le_zero.1 hk)
    subst hs
    simp [genSplit, Index_nil_of_ne_nil hsep]
  | n + 1, k + 1, s, hn, hk => by
    simp only [genSplit]
    cases hi : Index s sep with
    | none => rfl
    | some m =>
      have hlen : 0 < sep.length := List.length_pos.2 hsep
      have hd : (s.drop (m + sep.length)).length ≤ s.length - 1 := by
        rw [List.length_drop]; omega
      have ih := genSplit_fuel sep hsep n k (s.drop (m + sep.length)) (by omega) (by omega)
      simp [ih]

theorem genSplit_headD (sep : Str) (hsep : sep ≠ []) (k : Nat) (r : Str) (h : r.length ≤ k) :
    (genSplit sep k r).headD [] = firstPiece sep r := by
  cases k with
  | zero =>
    have hr : r = [] := List.length_eq_zero.1 (Nat.le_zero.1 h)
    subst hr
    simp [genSplit, firstPiece, Index_nil_of_ne_nil hsep]
  | succ k =>
    simp only [genSplit, firstPiece]
    cases Index r sep <;> simp

theorem Split_headD (sep : Str) (hsep : sep ≠ []) (s : Str) :
    (Split s sep).headD [] = firstPiece sep s := by
  have h : sep.isEmpty = false := by
    cases sep with
    | nil => exact absurd rfl hsep
    | cons a t => rfl
  simp only [Split, h]
  exact genSplit_headD sep hsep _ s (Nat.le_refl _)

theorem firstPiece_singleton (c : Char) : ∀ s : Str, firstPiece [c] s = s.takeWhile (· ≠ c)
  | [] => by simp [firstPiece, Index, List.isPrefixOf]
  | a :: t => by
    have ih := firstPiece_singleton c t
    by_cases hca : c = a
    · subst hca
      simp [firstPiece, Index, List.isPrefixOf]
    · have hac : a ≠ c := fun h => hca h.symm
      have hidx : Index (a :: t) [c] = (Index t [c]).map (· + 1) := by
        simp [Index, List.isPrefixOf, hca]
      have htw : (a :: t).takeWhile (· ≠ c) = a :: t.takeWhile (· ≠ c) :=
        List.takeWhile_cons_of_pos (by simpa using hac)
      rw [htw, ← ih]
      simp only [firstPiece, hidx]
      cases Index t [c] <;> simp

theorem marker_ne_nil : marker ≠ [] := by decide

theorem extract_of_Index_none (d : Str) (h : Index d marker = none) :
    extractGitHubIssueNumber d = 0 := by
  simp [extractGitHubIssueNumber, Contains, h]

/-- What `extractGitHubIssueNumber` reads: the text behind the first marker, cut at
the next marker and then at the first colon. -/
theorem extract_of_Index_some (d : Str) (m : Nat) (h : Index d marker = some m) :
    extractGitHubIssueNumber d =
      (Atoi ((firstPiece marker (d.drop (m + marker.length))).takeWhile (· ≠ ':'))).getD 0 := by
  obtain ⟨post, _, hdrop, hlen⟩ := Index_some_decomp marker d m h
  have hml : marker.length = 14 := by decide
  obtain ⟨k, hk⟩ : ∃ k, d.length = k + 1 := ⟨d.length - 1, by omega⟩
  have hsplit : Split d marker
      = d.take m :: genSplit marker k (d.drop (m + marker.length)) := by
    have hne : marker.isEmpty = false := by decide
    simp only [Split, hne, hk, genSplit, h]
    simp
  have hhead : (genSplit marker k (d.drop (m + marker.length))).headD []
      = firstPiece marker (d.drop (m + marker.length)) :=
    genSplit_headD marker marker_ne_nil k _ (by rw [List.length_drop]; omega)
  have hcolon : ":".toList = [':'] := by decide
  simp only [extractGitHubIssueNumber, Contains, h, Option.isSome_some, if_true, hsplit]
  cases hg : genSplit marker k (d.drop (m + marker.length)) with
  | nil => exact absurd hg (genSplit_ne_nil _ _ _)
  | cons x xs =>
    rw [hg] at hhead
    simp only [List.headD_cons] at hhead
    have hlen2 : (d.take m :: x :: xs).length > 1 := by simp
    simp only [hlen2, if_true, List.getD_cons_succ, List.getD_cons_zero]
    rw [Split_headD _ (by decide), hcolon, firstPiece_singleton, hhead]
    cases Atoi (List.takeWhile (fun x => decide (x ≠ ':')) (firstPiece marker _)) <;> rfl

theorem firstPiece_append_of_ne (g : Char) (p y : Str) :
    ∀ x : Str, (∀ c ∈ x, c ≠ g) →
      firstPiece (g :: p) (x ++ y) = x ++ firstPiece (g :: p) y
  | [], _ => rfl
  | a :: x, h => by
    have hag : ¬ g = a := fun e => h a (List.mem_cons_self _ _) e.symm
    have ih := firstPiece_append_of_ne g p y x (fun c hc => h c (List.mem_cons_of_mem _ hc))
    have hidx : Index (a :: (x ++ y)) (g :: p) = (Index (x ++ y) (g :: p)).map (· + 1) := by
      simp [Index, List.isPrefixOf, hag]
    simp only [firstPiece] at ih
    simp only [firstPiece, List.cons_append, hidx]
    rw [← ih]
    cases Index (x ++ y) (g :: p) <;> simp

theorem takeWhile_append_stop (q : Char → Bool) (c : Char) (z : Str) (hc : q c = false) :
    ∀ x : Str, (∀ a ∈ x, q a = true) → (x ++ c :: z).takeWhile q = x
  | [], _ => by simp [List.takeWhile, hc]
  | a :: x, h => by
    have ha : q a = true := h a (List.mem_cons_self _ _)
    have ih := takeWhile_append_stop q c z hc x (fun b hb => h b (List.mem_cons_of_mem _ hb))
    simp [List.takeWhile, ha, ih]

/-! ## Decimal rendering and parsing -/

theorem digit_char_facts (m : Nat) (h : m < 10) :
    (Char.ofNat (48 + m)).isDigit = true ∧ digitVal (Char.ofNat (48 + m)) = m := by
  interval_cases m <;> exact ⟨by decide, by decide⟩

/-- The digit loop yields a non-empty run of digits whose value is the number. -/
theorem fmtDigits_spec : ∀ (fuel n : Nat) (acc : Str), n < fuel →
    ∃ ds : Str, fmtDigits fuel n acc = ds ++ acc ∧ ds ≠ [] ∧
      (∀ c ∈ ds, c.isDigit = true) ∧
      ds.foldl (fun v c => v * 10 + digitVal c) 0 = n
  | 0, _, _, h => absurd h (Nat.not_lt_zero _)
  | fuel + 1, n, acc, h => by
    obtain ⟨hd, hv⟩ := digit_char_facts (n % 10) (Nat.mod_lt _ (by decide))
    by_cases h10 : n / 10 = 0
    · refine ⟨[Char.ofNat (48 + n % 10)], by simp [fmtDigits, h10], by simp, ?_, ?_⟩
      · intro c hc
        rw [List.mem_singleton.1 hc]
        exact hd
      · simp only [List.foldl_cons, List.foldl_nil, hv]
        omega
    · obtain ⟨ds, h1, _, h3, h4⟩ :=
        fmtDigits_spec fuel (n / 10) (Char.ofNat (48 + n % 10) :: acc) (by omega)
      refine ⟨ds ++ [Char.ofNat (48 + n % 10)], by simp [fmtDigits, h10, h1], by simp, ?_, ?_⟩
      · intro c hc
        rcases List.mem_append.1 hc with hc | hc
        · exact h3 c hc
        · rw [List.mem_singleton.1 hc]
          exact hd
      · rw [List.foldl_append]
        simp only [List.foldl_cons, List.foldl_nil, h4, hv]
        omega

theorem parseDigits_of_digits (ds : Str) (hne : ds ≠ []) (hd : ∀ c ∈ ds, c.isDigit = true) :
    parseDigits ds = some (ds.foldl (fun v c => v * 10 + digitVal c) 0) := by
  have h1 : ds.isEmpty = false := by
    cases ds with
    | nil => exact absurd rfl hne
    | cons a t => rfl
  have h2 : ds.all Char.isDigit = true := List.all_eq_true.2 hd
  simp [parseDigits, h1, h2]

/-- The characters `%d` writes are digits, after a minus sign for a negative number. -/
theorem fmtInt_chars (n : Int) : ∀ c ∈ fmtInt n, c = '-' ∨ c.isDigit = true := by
  obtain ⟨ds, h1, _, h3, _⟩ := fmtDigits_spec (n.natAbs + 1) n.natAbs [] (Nat.lt_succ_self _)
  rw [List.append_nil] at h1
  intro c hc
  unfold fmtInt at hc
  rw [h1] at hc
  split at hc
  · rcases List.mem_cons.1 hc with rfl | hc
    · exact Or.inl rfl
    · exact Or.inr (h3 c hc)
  · exact Or.inr (h3 c hc)

/-- Reading back what `%d` wrote gives the number, for every Go `int`. -/
theorem Atoi_fmtInt (n : Int) (hn : GoInt n) : Atoi (fmtInt n) = some n := by
  obtain ⟨ds, h1, h2, h3, h4⟩ :=
    fmtDigits_spec (n.natAbs + 1) n.natAbs [] (Nat.lt_succ_self _)
  rw [List.append_nil] at h1
  have hp := parseDigits_of_digits ds h2 h3
  rw [h4] at hp
  obtain ⟨hlo, hhi⟩ := hn
  unfold fmtInt
  rw [h1]
  by_cases hneg : n < 0
  · have hle : n.natAbs ≤ 2 ^ 63 := by omega
    have hval : -(n.natAbs : Int) = n := by omega
    rw [if_pos hneg]
    simp only [Atoi, if_true, hp]
    rw [if_pos hle, hval]
  · have hlt : n.natAbs < 2 ^ 63 := by omega
    have hval : (n.natAbs : Int) = n := by omega
    cases ds with
    | nil => exact absurd rfl h2
    | cons c t =>
      have hc : c.isDigit = true := h3 c (List.mem_cons_self _ _)
      have hm : c ≠ '-' := fun e => by rw [e] at hc; exact absurd hc (by decide)
      have hpl : c ≠ '+' := fun e => by rw [e] at hc; exact absurd hc (by decide)
      rw [if_neg hneg]
      simp only [Atoi, if_neg hm, if_neg hpl, hp]
      rw [if_pos hlt, hval]

/-- The first marker of a formatted reference is at its very start. -/
theorem Index_FormatGitHubReference (N : Int) (url : Str) :
    Index (FormatGitHubReference N url) marker = some 0 := by
  have hd : FormatGitHubReference N url
      = [] ++ marker ++ (fmtInt N ++ ([':', ' '] ++ url)) := by
    have : ": ".toList = [':', ' '] := by decide
    simp [FormatGitHubReference, this]
  rw [hd]
  exact Index_eq_some_of_first marker _ marker_ne_nil []
    (fun h => absurd h.length_le (by decide))

/-- The number text read from a formatted reference is what `%d` wrote, whatever
the URL contains. -/
theorem numberPart_FormatGitHubReference (N : Int) (url : Str) :
    (firstPiece marker ((FormatGitHubReference N url).drop (0 + marker.length))).takeWhile
      (· ≠ ':') = fmtInt N := by
  have hdrop : (FormatGitHubReference N url).drop (0 + marker.length)
      = (fmtInt N ++ [':', ' ']) ++ url := by
    have : ": ".toList = [':', ' '] := by decide
    simp [FormatGitHubReference, this]
  have hmk : marker = 'G' :: "itHub Issue #".toList := by decide
  have hchars : ∀ c ∈ fmtInt N ++ [':', ' '], c ≠ 'G' := by
    intro c hc e
    subst e
    rcases List.mem_append.1 hc with h | h
    · rcases fmtInt_chars N _ h with h | h
      · exact absurd h (by decide)
      · exact absurd h (by decide)
    · exact absurd h (by decide)
  have hq : ∀ a ∈ fmtInt N, (fun x : Char => decide (x ≠ ':')) a = true := by
    intro a ha
    rcases fmtInt_chars N a ha with h | h
    · subst h; decide
    · have : a ≠ ':' := fun e => by rw [e] at h; exact absurd h (by decide)
      simpa using this
  have hstop := takeWhile_append_stop (fun x => decide (x ≠ ':')) ':'
    (' ' :: firstPiece marker url) (by decide) (fmtInt N) hq
  rw [hdrop]
  conv_lhs => rw [hmk, firstPiece_append_of_ne 'G' _ url _ hchars, ← hmk]
  simpa using hstop

/-- Parsing a freshly formatted marker gives back the number. -/
theorem extract_FormatGitHubReference (N : Int) (url : Str) (hN : GoInt N) :
    extractGitHubIssueNumber (FormatGitHubReference N url) = N := by
  rw [extract_of_Index_some _ 0 (Index_FormatGitHubReference N url),
    numberPart_FormatGitHubReference, Atoi_fmtInt N hN]
  rfl

/-- C1. Marker round trip: for every issue number `N` (a Go `int`) and every URL,
parsing the description built by `FormatGitHubReference N url` gives back `N`,
whatever the URL contains. -/
theorem marker_round_trip (N : Int) (url : Str) (hN : GoInt N) :
    extractGitHubIssueNumber (FormatGitHubReference N url) = N := by
  have hfirst : Index (FormatGitHubReference N url) marker = some 0 :=
    Index_FormatGitHubReference N url
  have hread : extractGitHubIssueNumber (FormatGitHubReference N url)
      = (Atoi (fmtInt N)).getD 0 := by
    rw [extract_of_Index_some _ 0 hfirst, numberPart_FormatGitHubReference]
  have hback : Atoi (fmtInt N) = some N := Atoi_fmtInt N hN
  rw [hread, hback]
  rfl

theorem marker_round_trip_witness :
    GoInt 42 ∧
    extractGitHubIssueNumber
      (FormatGitHubReference 42 "https://x/issues/42?a=1:2 GitHub Issue #7: y".toList) = 42 :=
  ⟨by decide, marker_round_trip 42 _ (by decide)⟩

theorem firstPiece_of_absent (p s : Str) (h : ¬ p <:+: s) : firstPiece p s = s := by
  simp [firstPiece, Index_none_of_absent p s h]

theorem firstPiece_of_first (p seg rest : Str) (hp : p ≠ [])
    (h : ¬ p <:+: seg ++ p.dropLast) : firstPiece p (seg ++ p ++ rest) = seg := by
  unfold firstPiece
  rw [Index_eq_some_of_first p rest hp seg h]
  simp

/-- C2, refuted as stated.  The description `GitHub Issue #12GitHub Issue #34: x`
contains the literal; the text behind it up to the first colon is
`12GitHub Issue #34`, which is no integer, so the stated rule gives "unlinked";
the code returns 12. -/
theorem marker_parse_counterexample :
    marker <:+: "GitHub Issue #12GitHub Issue #34: x".toList ∧
    "GitHub Issue #12GitHub Issue #34: x".toList
      = marker ++ "12GitHub Issue #34".toList ++ ':' :: " x".toList ∧
    Atoi "12GitHub Issue #34".toList = none ∧
    parseMarkerSpec "GitHub Issue #12GitHub Issue #34: x".toList = 0 ∧
    extractGitHubIssueNumber "GitHub Issue #12GitHub Issue #34: x".toList = 12 := by
  refine ⟨⟨[], "12GitHub Issue #34: x".toList, by decide⟩, by decide, by decide, by decide,
    by decide⟩

/-- C2, amended.  `extractGitHubIssueNumber` returns 0 when the description does not
contain `GitHub Issue #`.  Otherwise, with `post` the text behind the first
occurrence of the literal and `seg` the part of `post` in front of the next
occurrence of the literal (all of `post` when there is none), it returns `seg` up
to, not including, its first colon read by `strconv.Atoi`, and 0 when that text does
not parse.  The three sample descriptions give 42, 0 and 0. -/
theorem marker_parse_amended (d : Str) :
    (¬ marker <:+: d → extractGitHubIssueNumber d = 0) ∧
    (∀ pre post seg : Str, d = pre ++ marker ++ post → ¬ marker <:+: pre ++ marker.dropLast →
      ((seg = post ∧ ¬ marker <:+: post) ∨
        (∃ rest, post = seg ++ marker ++ rest ∧ ¬ marker <:+: seg ++ marker.dropLast)) →
      extractGitHubIssueNumber d = (Atoi (seg.takeWhile (· ≠ ':'))).getD 0) ∧
    extractGitHubIssueNumber "GitHub Issue #42: https://x".toList = 42 ∧
    extractGitHubIssueNumber "no marker here".toList = 0 ∧
    extractGitHubIssueNumber "GitHub Issue #abc: https://x".toList = 0 := by
  refine ⟨fun h => extract_of_Index_none d (Index_none_of_absent marker d h),
    ?_, by decide, by decide, by decide⟩
  intro pre post seg hd hfirst hseg
  have hidx : Index d marker = some pre.length := by
    rw [hd]
    exact Index_eq_some_of_first marker post marker_ne_nil pre hfirst
  have hdrop : d.drop (pre.length + marker.length) = post := by
    rw [hd, List.append_assoc, List.drop_append]
    exact List.drop_left _ _
  have hpiece : firstPiece marker post = seg := by
    rcases hseg with ⟨h1, h2⟩ | ⟨rest, h1, h2⟩
    · rw [h1]
      exact firstPiece_of_absent marker post h2
    · rw [h1]
      exact firstPiece_of_first marker seg rest marker_ne_nil h2
  rw [extract_of_Index_some d _ hidx, hdrop, hpiece]

theorem marker_parse_amended_witness :
    extractGitHubIssueNumber "see GitHub Issue #12GitHub Issue #34: x".toList
      = (Atoi ("12".toList.takeWhile (· ≠ ':'))).getD 0 :=
  (marker_parse_amended "see GitHub Issue #12GitHub Issue #34: x".toList).2.1
    "see ".toList "12GitHub Issue #34: x".toList "12".toList (by decide) (by decide)
    (Or.inr ⟨"34: x".toList, by decide, by decide⟩)

/-! ## Priority derivation -/

theorem priorityMap_of_mem (key : Str) (p : Int)
    (h : (key, p) ∈ [("urgent".toList, (4 : Int)), ("high".toList, 3), ("medium".toList, 2),
      ("low".toList, 1)]) : priorityMap key = some p := by
  simp only [List.mem_cons, Prod.mk.injEq, List.mem_singleton, List.not_mem_nil, or_false] at h
  rcases h with ⟨rfl, rfl⟩ | ⟨rfl, rfl⟩ | ⟨rfl, rfl⟩ | ⟨rfl, rfl⟩ <;> decide

theorem priorityMap_none_of_no_key (key : Str)
    (h : ∀ kp ∈ [("urgent".toList, (4 : Int)), ("high".toList, 3), ("medium".toList, 2),
      ("low".toList, 1)], key ≠ kp.1) : priorityMap key = none := by
  have h1 := h ("urgent".toList, 4) (by simp)
  have h2 := h ("high".toList, 3) (by simp)
  have h3 := h ("medium".toList, 2) (by simp)
  have h4 := h ("low".toList, 1) (by simp)
  simp only [priorityMap]
  rw [if_neg h1, if_neg h2, if_neg h3, if_neg h4]

theorem ToLower_of_ascii (lower : Char → Char) (s : Str)
    (h : s.all (fun c => decide (c.toNat < 128)) = true) : ToLower lower s = s.map asciiLower := by
  simp only [ToLower, h, if_true]

theorem GetLabelPriority_skip (lower : Char → Char) (rest : List Str) :
    ∀ pre : List Str, (∀ x ∈ pre, priorityMap (ToLower lower x) = none) →
      GetLabelPriority lower (pre ++ rest) = GetLabelPriority lower rest
  | [], _ => rfl
  | x :: pre, h => by
    have hx := h x (List.mem_cons_self _ _)
    have ih := GetLabelPriority_skip lower rest pre (fun y hy => h y (List.mem_cons_of_mem _ hy))
    show GetLabelPriority lower (x :: (pre ++ rest)) = GetLabelPriority lower rest
    simp only [GetLabelPriority, hx, ih]

/-- C3. Priority derivation: `GetLabelPriority` returns the table value (urgent 4,
high 3, medium 2, low 1) of the first label, in list order, whose lower-cased form
is a key of the table, and 1 when no label matches; priorities of several labels
are not combined: `["medium", "urgent"]` gives 2.  Lower-casing is
`strings.ToLower`, for any case tables `lower` of `unicode.ToLower`. -/
theorem label_priority_first_match (lower : Char → Char) (labels : List Str) :
    (∀ (pre post : List Str) (l key : Str) (p : Int), labels = pre ++ l :: post →
      (key, p) ∈ [("urgent".toList, (4 : Int)), ("high".toList, 3), ("medium".toList, 2),
        ("low".toList, 1)] →
      ToLower lower l = key →
      (∀ x ∈ pre, ∀ kp ∈ [("urgent".toList, (4 : Int)), ("high".toList, 3),
        ("medium".toList, 2), ("low".toList, 1)], ToLower lower x ≠ kp.1) →
      GetLabelPriority lower labels = p) ∧
    ((∀ x ∈ labels, ∀ kp ∈ [("urgent".toList, (4 : Int)), ("high".toList, 3),
        ("medium".toList, 2), ("low".toList, 1)], ToLower lower x ≠ kp.1) →
      GetLabelPriority lower labels = 1) ∧
    GetLabelPriority lower ["medium".toList, "urgent".toList] = 2 ∧
    GetLabelPriority lower ["medium".toList, "urgent".toList] ≠ 4 := by
  refine ⟨?_, ?_, ?_, ?_⟩
  · intro pre post l key p hl hkey hlow hpre
    have hskip := GetLabelPriority_skip lower (l :: post) pre
      (fun x hx => priorityMap_none_of_no_key _ (hpre x hx))
    have hhit : priorityMap (ToLower lower l) = some p := by
      rw [hlow]
      exact priorityMap_of_mem key p hkey
    rw [hl, hskip]
    simp only [GetLabelPriority, hhit]
  · intro hnone
    have hskip := GetLabelPriority_skip lower [] labels
      (fun x hx => priorityMap_none_of_no_key _ (hnone x hx))
    rw [List.append_nil] at hskip
    rw [hskip]
    rfl
  · have h1 : ToLower lower "medium".toList = "medium".toList := by
      rw [ToLower_of_ascii lower _ (by decide)]
      decide
    have h2 : priorityMap "medium".toList = some 2 := by decide
    simp only [GetLabelPriority, h1, h2]
  · have h1 : ToLower lower "medium".toList = "medium".toList := by
      rw [ToLower_of_ascii lower _ (by decide)]
      decide
    have h2 : priorityMap "medium".toList = some 2 := by decide
    simp only [GetLabelPriority, h1, h2]
    decide

theorem label_priority_first_match_witness :
    GetLabelPriority Char.toLower ["bug".toList, "HIGH".toList, "urgent".toList] = 3 :=
  (label_priority_first_match Char.toLower ["bug".toList, "HIGH".toList, "urgent".toList]).1
    ["bug".toList] ["urgent".toList] "HIGH".toList "high".toList 3 rfl (by decide) (by decide)
    (by decide)

/-! ## The forward pass -/

theorem createRequests_append (a b : List Call) :
    createRequests (a ++ b) = createRequests a ++ createRequests b := by
  induction a with
  | nil => rfl
  | cons c a ih => cases c <;> simp [createRequests, ih]

theorem updateTodoistTask_no_create {σ : Type} (s : Service σ) (task : Task) (issue : Issue)
    (w : σ) : createRequests (updateTodoistTask s task issue w).calls = [] := by
  unfold updateTodoistTask
  simp only []
  split
  · split <;> rfl
  · split <;> rfl

theorem foldl_taskMap_isSome (n : Int) : ∀ (tasks : List Task) (m : TaskMap),
    ((tasks.foldl
      (fun taskMap task =>
        let issueNum := extractGitHubIssueNumber task.Description
        if issueNum ≠ 0 then fun k => if k = issueNum then some task else taskMap k
        else taskMap) m) n).isSome = ((m n).isSome || hasLinkedTask tasks n)
  | [], m => by simp [hasLinkedTask]
  | t :: tasks, m => by
    rw [List.foldl_cons, foldl_taskMap_isSome n tasks]
    by_cases h0 : extractGitHubIssueNumber t.Description = 0
    · simp [hasLinkedTask, h0]
    · by_cases hn : n = extractGitHubIssueNumber t.Description
      · simp [hasLinkedTask, h0, hn]
      · have hn2 : ¬ extractGitHubIssueNumber t.Description = n := fun e => hn e.symm
        simp [hasLinkedTask, h0, hn, hn2]

/-- A number is a key of `taskMap` exactly when some fetched task is linked to it. -/
theorem buildTaskMap_isSome (tasks : List Task) (n : Int) :
    (buildTaskMap tasks n).isSome = hasLinkedTask tasks n := by
  unfold buildTaskMap
  rw [foldl_taskMap_isSome]
  simp

theorem forwardStep_creates {σ : Type} (s : Service σ) (taskMap : TaskMap) (issue : Issue)
    (w : σ) :
    createRequests (forwardStep s taskMap issue w).calls =
      if (!issue.IsPullReq && (taskMap issue.Number).isNone) = true then
        [({ Content := issue.Title
            Description := FormatGitHubReference issue.Number issue.HTMLURL
            ProjectID := s.projectID
            Priority := GetLabelPriority s.lower issue.Labels
            Labels := convertLabels s.lower issue.Labels } : CreateTaskRequest)]
      else [] := by
  unfold forwardStep
  by_cases hpr : issue.IsPullReq = true
  · simp [hpr, createRequests]
  · have hpr2 : issue.IsPullReq = false := by simpa using hpr
    cases hm : taskMap issue.Number with
    | none => simp [hpr2, createTodoistTask, createRequests]
    | some existingTask => simp [hpr2, updateTodoistTask_no_create]

theorem forwardLoop_creates {σ : Type} (s : Service σ) (taskMap : TaskMap) :
    ∀ (issues : List Issue) (syncedCount : Nat) (w : σ),
      createRequests (forwardLoop s taskMap issues syncedCount w).calls =
        (issues.filter (fun i => !i.IsPullReq && (taskMap i.Number).isNone)).map
          (fun i =>
            ({ Content := i.Title
               Description := FormatGitHubReference i.Number i.HTMLURL
               ProjectID := s.projectID
               Priority := GetLabelPriority s.lower i.Labels
               Labels := convertLabels s.lower i.Labels } : CreateTaskRequest))
  | [], _, _ => rfl
  | issue :: rest, syncedCount, w => by
    simp only [forwardLoop, createRequests_append, forwardStep_creates]
    rw [forwardLoop_creates s taskMap rest]
    by_cases hq : (!issue.IsPullReq && (taskMap issue.Number).isNone) = true
    · simp [List.filter_cons, hq]
    · simp [List.filter_cons, hq]

theorem filter_key_eq_nil {α : Type} (f : α → Int) (q : α → Bool) (k : Int) :
    ∀ l : List α, (∀ j ∈ l, f j ≠ k) →
      (l.filter q).filter (fun j => decide (f j = k)) = []
  | [], _ => rfl
  | a :: t, h => by
    have ha : f a ≠ k := h a (List.mem_cons_self _ _)
    have ih := filter_key_eq_nil f q k t (fun j hj => h j (List.mem_cons_of_mem _ hj))
    by_cases hq : q a = true
    · simp [List.filter_cons, hq, ha, ih]
    · simp [List.filter_cons, hq, ih]

/-- Among items with pairwise distinct keys, the selected items that carry the key
of a given item are that item alone, if it is selected. -/
theorem filter_key_length {α : Type} (f : α → Int) (q : α → Bool) (i : α) :
    ∀ l : List α, i ∈ l → (l.map f).Nodup →
      ((l.filter q).filter (fun j => decide (f j = f i))).length = if q i = true then 1 else 0
  | [], hi, _ => absurd hi (List.not_mem_nil _)
  | a :: t, hi, hnd => by
    rw [List.map_cons, List.nodup_cons] at hnd
    obtain ⟨hnot, hnd2⟩ := hnd
    by_cases hia : f a = f i
    · have hit : i ∉ t := fun hm => hnot (hia ▸ List.mem_map_of_mem f hm)
      have hai : i = a := by
        rcases List.mem_cons.1 hi with h | h
        · exact h
        · exact absurd h hit
      subst hai
      have hrest := filter_key_eq_nil f q (f i) t
        (fun j hj e => hnot (e ▸ List.mem_map_of_mem f hj))
      by_cases hq : q i = true
      · simp [List.filter_cons, hq, hrest]
      · simp [List.filter_cons, hq, hrest]
    · have hit : i ∈ t := by
        rcases List.mem_cons.1 hi with h | h
        · exact absurd (by rw [h]) hia
        · exact h
      have ih := filter_key_length f q i t hit hnd2
      rw [List.filter_filter] at ih
      by_cases hq : q a = true
      · simp [List.filter_cons, hq, hia, ih]
      · simp [List.filter_cons, hq, ih]

/-- The create requests of a forward pass whose two fetches succeed. -/
theorem SyncFromGitHub_creates {σ : Type} (s : Service σ) (w : σ) (issues : List Issue)
    (tasks : List Task)
    (hissues : (s.remote.GetIssues w).1 = Except.ok issues)
    (htasks : (s.remote.GetTasks s.projectID (s.remote.GetIssues w).2).1 = Except.ok tasks) :
    createRequests (SyncFromGitHub s w).calls =
      (issues.filter (fun i => !i.IsPullReq && !hasLinkedTask tasks i.Number)).map
        (fun i =>
          ({ Content := i.Title
             Description := FormatGitHubReference i.Number i.HTMLURL
             ProjectID := s.projectID
             Priority := GetLabelPriority s.lower i.Labels
             Labels := convertLabels s.lower i.Labels } : CreateTaskRequest)) := by
  unfold SyncFromGitHub
  simp only [hissues, htasks]
  rw [createRequests_append, forwardLoop_creates]
  have hq : (fun i : Issue => !i.IsPullReq && (buildTaskMap tasks i.Number).isNone)
      = (fun i : Issue => !i.IsPullReq && !hasLinkedTask tasks i.Number) := by
    funext i
    rw [← buildTaskMap_isSome]
    cases buildTaskMap tasks i.Number <;> rfl
  rw [hq]
  rfl

/-- C4. Forward-pass creation.  Let the two fetches of `SyncFromGitHub` return
`issues`, with pairwise distinct numbers, and `tasks`; the gateway is arbitrary, so
every other call may succeed or fail.  Then the create requests the pass issues
are, in order, one for each issue that is no pull request and has no linked task,
with content the title, description `FormatGitHubReference number url`, project
the target project, priority `GetLabelPriority labels` and labels
`convertLabels labels`; counted by the issue number their description parses to,
that is exactly one request for such an issue and none for any other issue; and
the description parses back to the issue number. -/
theorem forward_pass_creation {σ : Type} (s : Service σ) (w : σ) (issues : List Issue)
    (tasks : List Task)
    (hissues : (s.remote.GetIssues w).1 = Except.ok issues)
    (htasks : (s.remote.GetTasks s.projectID (s.remote.GetIssues w).2).1 = Except.ok tasks)
    (hdistinct : (issues.map (fun i => i.Number)).Nodup)
    (hint : ∀ i ∈ issues, GoInt i.Number) :
    createRequests (SyncFromGitHub s w).calls =
      (issues.filter (fun i => !i.IsPullReq && !hasLinkedTask tasks i.Number)).map
        (fun i =>
          ({ Content := i.Title
             Description := FormatGitHubReference i.Number i.HTMLURL
             ProjectID := s.projectID
             Priority := GetLabelPriority s.lower i.Labels
             Labels := convertLabels s.lower i.Labels } : CreateTaskRequest)) ∧
    (∀ i ∈ issues,
      ((createRequests (SyncFromGitHub s w).calls).filter
        (fun r => decide (extractGitHubIssueNumber r.Description = i.Number))).length =
        if (!i.IsPullReq && !hasLinkedTask tasks i.Number) = true then 1 else 0) ∧
    (∀ i ∈ issues,
      extractGitHubIssueNumber (FormatGitHubReference i.Number i.HTMLURL) = i.Number) := by
  have hcalls := SyncFromGitHub_creates s w issues tasks hissues htasks
  have hround : ∀ i ∈ issues,
      extractGitHubIssueNumber (FormatGitHubReference i.Number i.HTMLURL) = i.Number :=
    fun i hi => extract_FormatGitHubReference i.Number i.HTMLURL (hint i hi)
  refine ⟨hcalls, ?_, hround⟩
  intro i hi
  rw [hcalls, List.filter_map, List.length_map]
  have hcongr : ∀ j ∈ issues.filter (fun i => !i.IsPullReq && !hasLinkedTask tasks i.Number),
      ((fun r : CreateTaskRequest => decide (extractGitHubIssueNumber r.Description = i.Number)) ∘
        (fun i : Issue =>
          ({ Content := i.Title
             Description := FormatGitHubReference i.Number i.HTMLURL
             ProjectID := s.projectID
             Priority := GetLabelPriority s.lower i.Labels
             Labels := convertLabels s.lower i.Labels } : CreateTaskRequest))) j
        = (fun j : Issue => decide (j.Number = i.Number)) j := by
    intro j hj
    have hjm : j ∈ issues := (List.mem_filter.1 hj).1
    simp only [Function.comp, hround j hjm]
  rw [List.filter_congr hcongr]
  exact filter_key_length (fun i : Issue => i.Number)
    (fun i => !i.IsPullReq && !hasLinkedTask tasks i.Number) i issues hi hdistinct

theorem forward_pass_creation_witness :
    createRequests (SyncFromGitHub sampleService sampleRemote).calls =
      [{ Content := "Fix the build".toList
         Description := "GitHub Issue #7: https://github.com/o/r/issues/7".toList
         ProjectID := "P1".toList
         Priority := 4
         Labels := ["urgent".toList] }] :=
  (forward_pass_creation sampleService sampleRemote sampleRemote.issues sampleRemote.tasks
    rfl rfl (by decide) (by decide)).1.trans (by decide)

/-! ## Updating a linked task -/

/-- The payload holds the title under `content` when the content is stale, then the
derived priority under `priority` when the priority is stale, and nothing else. -/
theorem collectUpdates_eq (lower : Char → Char) (task : Task) (issue : Issue) :
    collectUpdates lower task issue =
      (if task.Content ≠ issue.Title then [("content".toList, FieldValue.str issue.Title)]
        else []) ++
      (if task.Priority ≠ GetLabelPriority lower issue.Labels then
        [("priority".toList, FieldValue.int (GetLabelPriority lower issue.Labels))] else []) := by
  have hne : ¬ "content".toList = "priority".toList := by decide
  unfold collectUpdates
  by_cases hc : task.Content = issue.Title <;>
    by_cases hp : task.Priority = GetLabelPriority lower issue.Labels <;>
    simp [hc, hp, Updates.set, hne]

/-- C5. Forward-pass update with state precedence: `updateTodoistTask` issues at most
one gateway call.  When the completion flag of the task disagrees with whether the
issue is closed, the call is `CloseTask` (issue closed, task open) or `ReopenTask`
(issue not closed, task completed), and no `UpdateTask`, whatever the content and
the priority.  Otherwise there is no call when neither content nor priority
differs, and else a single `UpdateTask` whose payload holds `content` = the issue
title exactly when the content differs, `priority` = the derived priority exactly
when the priority differs, and no other key. -/
theorem update_state_precedence {σ : Type} (s : Service σ) (task : Task) (issue : Issue)
    (w : σ) :
    (updateTodoistTask s task issue w).calls.length ≤ 1 ∧
    (issue.State = "closed".toList → task.IsCompleted = false →
      (updateTodoistTask s task issue w).calls = [Call.CloseTask task.ID]) ∧
    (issue.State ≠ "closed".toList → task.IsCompleted = true →
      (updateTodoistTask s task issue w).calls = [Call.ReopenTask task.ID]) ∧
    (task.IsCompleted = decide (issue.State = "closed".toList) →
      (task.Content = issue.Title → task.Priority = GetLabelPriority s.lower issue.Labels →
        (updateTodoistTask s task issue w).calls = []) ∧
      (task.Content ≠ issue.Title ∨ task.Priority ≠ GetLabelPriority s.lower issue.Labels →
        ∃ updates : Updates,
          (updateTodoistTask s task issue w).calls = [Call.UpdateTask task.ID updates] ∧
          updates.get "content".toList =
            (if task.Content ≠ issue.Title then some (FieldValue.str issue.Title) else none) ∧
          updates.get "priority".toList =
            (if task.Priority ≠ GetLabelPriority s.lower issue.Labels then
              some (FieldValue.int (GetLabelPriority s.lower issue.Labels)) else none) ∧
          ∀ key : Str, key ≠ "content".toList → key ≠ "priority".toList →
            updates.get key = none)) := by
  have hne : ¬ "content".toList = "priority".toList := by decide
  have hne2 : ¬ "priority".toList = "content".toList := by decide
  refine ⟨?_, ?_, ?_, ?_⟩
  · unfold updateTodoistTask
    simp only []
    split
    · split <;> simp
    · split <;> simp
  · intro hst hc
    simp [updateTodoistTask, hst, hc]
  · intro hst hc
    have hst2 : ¬ issue.State = ['c', 'l', 'o', 's', 'e', 'd'] := hst
    simp [updateTodoistTask, hst2, hc]
  · intro hagree
    have hskip : ¬ task.IsCompleted ≠ decide (issue.State = "closed".toList) :=
      fun h => h hagree
    refine ⟨?_, ?_⟩
    · intro hc hp
      have hu : collectUpdates s.lower task issue = [] := by
        rw [collectUpdates_eq]
        simp [hc, hp]
      simp only [updateTodoistTask, if_neg hskip, hu]
      rfl
    · intro hdiff
      have hlen : (collectUpdates s.lower task issue).length > 0 := by
        rw [collectUpdates_eq]
        rcases hdiff with h | h
        · simp [h]
        · simp [h]
      refine ⟨collectUpdates s.lower task issue, ?_, ?_, ?_, ?_⟩
      · simp only [updateTodoistTask, if_neg hskip, if_pos hlen]
      · rw [collectUpdates_eq]
        by_cases hc : task.Content = issue.Title <;>
          by_cases hp : task.Priority = GetLabelPriority s.lower issue.Labels <;>
          simp [hc, hp, Updates.get, hne2]
      · rw [collectUpdates_eq]
        by_cases hc : task.Content = issue.Title <;>
          by_cases hp : task.Priority = GetLabelPriority s.lower issue.Labels <;>
          simp [hc, hp, Updates.get, hne]
      · intro key hk1 hk2
        have hk1b : ¬ ['c', 'o', 'n', 't', 'e', 'n', 't'] = key := fun e => hk1 e.symm
        have hk2b : ¬ ['p', 'r', 'i', 'o', 'r', 'i', 't', 'y'] = key := fun e => hk2 e.symm
        rw [collectUpdates_eq]
        by_cases hc : task.Content = issue.Title <;>
          by_cases hp : task.Priority = GetLabelPriority s.lower issue.Labels <;>
          simp [hc, hp, Updates.get, hk1b, hk2b]

theorem update_state_precedence_witness :
    (updateTodoistTask sampleService
      (sampleTask "t7".toList "GitHub Issue #7: u".toList true 1)
      (sampleIssue 7 "open".toList ["urgent".toList] false) sampleRemote).calls
      = [Call.ReopenTask "t7".toList] :=
  (update_state_precedence sampleService
    (sampleTask "t7".toList "GitHub Issue #7: u".toList true 1)
    (sampleIssue 7 "open".toList ["urgent".toList] false) sampleRemote).2.2.1
    (by decide) rfl

/-! ## The reverse pass -/

/-- The counter of the reverse loop has no influence on its calls and final state. -/
theorem reverseLoop_count {σ : Type} (s : Service σ) :
    ∀ (tasks : List Task) (c : Nat) (w : σ),
      (reverseLoop s tasks c w).calls = (reverseLoop s tasks 0 w).calls ∧
      (reverseLoop s tasks c w).state = (reverseLoop s tasks 0 w).state
  | [], _, _ => ⟨rfl, rfl⟩
  | t :: rest, c, w => by
    simp only [reverseLoop]
    obtain ⟨h1, h2⟩ := reverseLoop_count s rest
      (if (reverseStep s t w).result = true then c + 1 else c) (reverseStep s t w).state
    obtain ⟨h3, h4⟩ := reverseLoop_count s rest
      (if (reverseStep s t w).result = true then 0 + 1 else 0) (reverseStep s t w).state
    exact ⟨by rw [h1, h3], by rw [h2, h4]⟩

/-- The reverse loop over a concatenation runs the second list from the state the
first list leaves. -/
theorem reverseLoop_append {σ : Type} (s : Service σ) (post : List Task) :
    ∀ (pre : List Task) (w : σ),
      (reverseLoop s (pre ++ post) 0 w).calls =
        (reverseLoop s pre 0 w).calls ++
          (reverseLoop s post 0 (reverseLoop s pre 0 w).state).calls ∧
      (reverseLoop s (pre ++ post) 0 w).state =
        (reverseLoop s post 0 (reverseLoop s pre 0 w).state).state
  | [], _ => ⟨rfl, rfl⟩
  | t :: pre, w => by
    obtain ⟨h1, h2⟩ := reverseLoop_append s post pre (reverseStep s t w).state
    obtain ⟨c1, c2⟩ := reverseLoop_count s (pre ++ post)
      (if (reverseStep s t w).result = true then 0 + 1 else 0) (reverseStep s t w).state
    obtain ⟨c3, c4⟩ := reverseLoop_count s pre
      (if (reverseStep s t w).result = true then 0 + 1 else 0) (reverseStep s t w).state
    show (reverseLoop s (t :: (pre ++ post)) 0 w).calls =
        (reverseLoop s (t :: pre) 0 w).calls ++
          (reverseLoop s post 0 (reverseLoop s (t :: pre) 0 w).state).calls ∧
      (reverseLoop s (t :: (pre ++ post)) 0 w).state =
        (reverseLoop s post 0 (reverseLoop s (t :: pre) 0 w).state).state
    simp only [reverseLoop]
    exact ⟨by rw [c1, c3, c4, h1, List.append_assoc], by rw [c2, c4, h2]⟩

/-- C6. Reverse-pass rule.  When the fetch of `SyncToGitHub` returns `tasks`, the
calls of the pass are the fetch followed, task by task in fetched order, by the
calls of `reverseStep` for that task.  For a task whose description has no
parseable marker these are no calls at all.  For a linked task they start with the
fetch of issue `n`, and when that fetch succeeds they continue with exactly one
`UpdateIssueState` of the fetched issue to `closed` when the task is completed and
the issue open, exactly one `UpdateIssueState` to `open` when the task is not
completed and the issue closed, and nothing otherwise. -/
theorem reverse_pass_rule {σ : Type} (s : Service σ) (w : σ) (tasks pre post : List Task)
    (t : Task)
    (hfetch : (s.remote.GetTasks s.projectID w).1 = Except.ok tasks)
    (hsplit : tasks = pre ++ t :: post) :
    (SyncToGitHub s w).calls =
      Call.GetTasks s.projectID ::
        ((reverseLoop s pre 0 (s.remote.GetTasks s.projectID w).2).calls ++
          (reverseStep s t (reverseLoop s pre 0 (s.remote.GetTasks s.projectID w).2).state).calls ++
          (reverseLoop s post 0
            (reverseStep s t
              (reverseLoop s pre 0 (s.remote.GetTasks s.projectID w).2).state).state).calls) ∧
    (∀ w1 : σ, extractGitHubIssueNumber t.Description = 0 →
      (reverseStep s t w1).calls = [] ∧ (reverseStep s t w1).state = w1) ∧
    (∀ (w1 : σ) (issue : Issue), extractGitHubIssueNumber t.Description ≠ 0 →
      (s.remote.GetIssue (extractGitHubIssueNumber t.Description) w1).1 = Except.ok issue →
      (reverseStep s t w1).calls =
        Call.GetIssue (extractGitHubIssueNumber t.Description) ::
          (if t.IsCompleted = true ∧ issue.State = "open".toList then
            [Call.UpdateIssueState issue.Number "closed".toList]
          else if t.IsCompleted = false ∧ issue.State = "closed".toList then
            [Call.UpdateIssueState issue.Number "open".toList]
          else [])) := by
  refine ⟨?_, ?_, ?_⟩
  · obtain ⟨h1, _⟩ := reverseLoop_append s (t :: post) pre (s.remote.GetTasks s.projectID w).2
    obtain ⟨c1, _⟩ := reverseLoop_count s post
      (if (reverseStep s t
        (reverseLoop s pre 0 (s.remote.GetTasks s.projectID w).2).state).result = true
        then 0 + 1 else 0)
      (reverseStep s t (reverseLoop s pre 0 (s.remote.GetTasks s.projectID w).2).state).state
    unfold SyncToGitHub
    simp only [hfetch, hsplit]
    rw [h1]
    simp only [reverseLoop]
    rw [c1, List.append_assoc]
  · intro w1 h0
    simp [reverseStep, h0]
  · intro w1 issue hn hget
    unfold reverseStep
    simp only [if_neg hn, hget, syncTaskStateToGitHub]
    split
    · rfl
    · split <;> rfl

theorem reverse_pass_rule_witness :
    (SyncToGitHub sampleService sampleReverseRemote).calls =
      [Call.GetTasks "P1".toList,
        Call.GetIssue 7, Call.UpdateIssueState 7 "closed".toList,
        Call.GetIssue 9, Call.UpdateIssueState 9 "open".toList,
        Call.GetIssue 3] :=
  (reverse_pass_rule sampleService sampleReverseRemote sampleReverseRemote.tasks []
    (sampleReverseRemote.tasks.drop 1)
    (sampleTask "t7".toList "GitHub Issue #7: https://github.com/o/r/issues/7".toList true 1)
    rfl rfl).1.trans (by decide)

/-! ## The forward pass over a remote in which every call takes effect -/

theorem applyUpdates_Description (updates : Updates) (t : Task) :
    (applyUpdates updates t).Description = t.Description := by
  unfold applyUpdates
  split <;> split <;> rfl

theorem map_Description_of_preserving (f : Task → Task)
    (hf : ∀ t, (f t).Description = t.Description) (tasks : List Task) :
    (tasks.map f).map (fun t => t.Description) = tasks.map (fun t => t.Description) := by
  rw [List.map_map]
  exact List.map_congr_left (fun t _ => hf t)

/-- Updating, closing or reopening a task leaves the issues and the descriptions of
the tasks as they are. -/
theorem ideal_update_preserves (s : Service Remote) (hs : s.remote = idealRemote) (task : Task)
    (issue : Issue) (w : Remote) :
    (updateTodoistTask s task issue w).state.issues = w.issues ∧
    (updateTodoistTask s task issue w).state.tasks.map (fun t => t.Description)
      = w.tasks.map (fun t => t.Description) := by
  unfold updateTodoistTask
  simp only [hs, idealRemote]
  split
  · split
    · refine ⟨rfl, map_Description_of_preserving _ (fun t => ?_) _⟩
      split <;> rfl
    · refine ⟨rfl, map_Description_of_preserving _ (fun t => ?_) _⟩
      split <;> rfl
  · split
    · refine ⟨rfl, map_Description_of_preserving _ (fun t => ?_) _⟩
      split
      · exact applyUpdates_Description _ _
      · rfl
    · exact ⟨rfl, rfl⟩

/-- Creating a task leaves the issues as they are and adds the description of the
request behind the descriptions of the tasks. -/
theorem ideal_create_adds (s : Service Remote) (hs : s.remote = idealRemote) (issue : Issue)
    (w : Remote) :
    (createTodoistTask s issue w).state.issues = w.issues ∧
    (createTodoistTask s issue w).state.tasks.map (fun t => t.Description)
      = w.tasks.map (fun t => t.Description)
        ++ [FormatGitHubReference issue.Number issue.HTMLURL] := by
  unfold createTodoistTask
  simp [hs, idealRemote, createdTask]

/-- One step of the forward loop adds the marker of the issue when it creates a
task for it, and otherwise leaves the descriptions as they are. -/
theorem ideal_forwardStep_state (s : Service Remote) (hs : s.remote = idealRemote)
    (taskMap : TaskMap) (issue : Issue) (w : Remote) :
    (forwardStep s taskMap issue w).state.issues = w.issues ∧
    (forwardStep s taskMap issue w).state.tasks.map (fun t => t.Description)
      = w.tasks.map (fun t => t.Description) ++
        if (!issue.IsPullReq && (taskMap issue.Number).isNone) = true then
          [FormatGitHubReference issue.Number issue.HTMLURL]
        else [] := by
  unfold forwardStep
  by_cases hpr : issue.IsPullReq = true
  · simp [hpr]
  · have hpr2 : issue.IsPullReq = false := by simpa using hpr
    cases hm : taskMap issue.Number with
    | none =>
      obtain ⟨c1, c2⟩ := ideal_create_adds s hs issue w
      simp [hpr2, c1, c2]
    | some existingTask =>
      obtain ⟨c1, c2⟩ := ideal_update_preserves s hs existingTask issue w
      simp [hpr2, c1, c2]

/-- After the forward loop the project holds the descriptions it held before,
followed by the markers of the issues the loop created a task for. -/
theorem ideal_forwardLoop_state (s : Service Remote) (hs : s.remote = idealRemote)
    (taskMap : TaskMap) :
    ∀ (issues : List Issue) (c : Nat) (w : Remote),
      (forwardLoop s taskMap issues c w).state.issues = w.issues ∧
      (forwardLoop s taskMap issues c w).state.tasks.map (fun t => t.Description)
        = w.tasks.map (fun t => t.Description) ++
          (issues.filter (fun i => !i.IsPullReq && (taskMap i.Number).isNone)).map
            (fun i => FormatGitHubReference i.Number i.HTMLURL)
  | [], _, _ => by simp [forwardLoop]
  | issue :: rest, c, w => by
    obtain ⟨c1, c2⟩ := ideal_forwardStep_state s hs taskMap issue w
    obtain ⟨h1, h2⟩ := ideal_forwardLoop_state s hs taskMap rest
      (if (forwardStep s taskMap issue w).result = true then c + 1 else c)
      (forwardStep s taskMap issue w).state
    simp only [forwardLoop]
    refine ⟨h1.trans c1, ?_⟩
    rw [h2, c2]
    by_cases hq : (!issue.IsPullReq && (taskMap issue.Number).isNone) = true
    · simp [List.filter_cons, hq]
    · simp [List.filter_cons, hq]

/-- Whether a number has a linked task depends on the descriptions alone. -/
theorem hasLinkedTask_iff (tasks : List Task) (n : Int) :
    hasLinkedTask tasks n = true ↔
      ∃ d ∈ tasks.map (fun t => t.Description),
        extractGitHubIssueNumber d ≠ 0 ∧ extractGitHubIssueNumber d = n := by
  simp [hasLinkedTask]

/-- The state a forward pass leaves on the remote in which every call takes effect. -/
theorem ideal_SyncFromGitHub_state (s : Service Remote) (hs : s.remote = idealRemote)
    (w : Remote) :
    (SyncFromGitHub s w).result = none ∧
    (SyncFromGitHub s w).state.issues = w.issues ∧
    (SyncFromGitHub s w).state.tasks.map (fun t => t.Description)
      = w.tasks.map (fun t => t.Description) ++
        (w.issues.filter (fun i => !i.IsPullReq && !hasLinkedTask w.tasks i.Number)).map
          (fun i => FormatGitHubReference i.Number i.HTMLURL) := by
  have hq : (fun i : Issue => !i.IsPullReq && (buildTaskMap w.tasks i.Number).isNone)
      = (fun i : Issue => !i.IsPullReq && !hasLinkedTask w.tasks i.Number) := by
    funext i
    rw [← buildTaskMap_isSome]
    cases buildTaskMap w.tasks i.Number <;> rfl
  obtain ⟨h1, h2⟩ := ideal_forwardLoop_state s hs (buildTaskMap w.tasks) w.issues 0 w
  rw [hq] at h2
  unfold SyncFromGitHub
  simp only [hs, idealRemote]
  exact ⟨trivial, h1, h2⟩

/-- C7. Forward-pass idempotence of creation: over the remote in which every call
succeeds and a create adds to the project a task carrying the content, description
and priority of the request, for every issue list with non-zero issue numbers
(Go `int`s) and every initial task list, a forward pass followed at once by a
second forward pass issues no create request in the second pass; both passes
return without error. -/
theorem forward_pass_idempotent (projectID : Str) (lower : Char → Char) (w : Remote)
    (hnz : ∀ i ∈ w.issues, i.Number ≠ 0) (hint : ∀ i ∈ w.issues, GoInt i.Number) :
    (SyncFromGitHub { remote := idealRemote, projectID := projectID, lower := lower } w).result
      = none ∧
    (SyncFromGitHub { remote := idealRemote, projectID := projectID, lower := lower }
      (SyncFromGitHub { remote := idealRemote, projectID := projectID, lower := lower }
        w).state).result = none ∧
    createRequests
      (SyncFromGitHub { remote := idealRemote, projectID := projectID, lower := lower }
        (SyncFromGitHub { remote := idealRemote, projectID := projectID, lower := lower }
          w).state).calls = [] := by
  generalize hsdef :
    ({ remote := idealRemote, projectID := projectID, lower := lower } : Service Remote) = s
  have hs : s.remote = idealRemote := by rw [← hsdef]
  obtain ⟨hres, hiss, hdesc⟩ := ideal_SyncFromGitHub_state s hs w
  obtain ⟨hres2, _, _⟩ := ideal_SyncFromGitHub_state s hs (SyncFromGitHub s w).state
  refine ⟨hres, hres2, ?_⟩
  have hcreates := SyncFromGitHub_creates s (SyncFromGitHub s w).state
    (SyncFromGitHub s w).state.issues (SyncFromGitHub s w).state.tasks
    (by rw [hs]; rfl) (by rw [hs]; rfl)
  rw [hcreates, hiss]
  have hnil : w.issues.filter
      (fun i => !i.IsPullReq && !hasLinkedTask (SyncFromGitHub s w).state.tasks i.Number)
        = [] := by
    rw [List.filter_eq_nil_iff]
    intro i hi hq
    have hq2 : i.IsPullReq = false ∧
        hasLinkedTask (SyncFromGitHub s w).state.tasks i.Number = false := by
      simpa using hq
    obtain ⟨hpr, hnot⟩ := hq2
    have hlinked : hasLinkedTask (SyncFromGitHub s w).state.tasks i.Number = true := by
      rw [hasLinkedTask_iff, hdesc]
      by_cases hold : hasLinkedTask w.tasks i.Number = true
      · obtain ⟨d, hd, hd2⟩ := (hasLinkedTask_iff w.tasks i.Number).1 hold
        exact ⟨d, List.mem_append_left _ hd, hd2⟩
      · have hold2 : hasLinkedTask w.tasks i.Number = false := by simpa using hold
        have hround := extract_FormatGitHubReference i.Number i.HTMLURL (hint i hi)
        refine ⟨FormatGitHubReference i.Number i.HTMLURL, List.mem_append_right _ ?_, ?_, hround⟩
        · exact List.mem_map.2 ⟨i, List.mem_filter.2 ⟨hi, by simp [hpr, hold2]⟩, rfl⟩
        · rw [hround]
          exact hnz i hi
    rw [hlinked] at hnot
    exact absurd hnot (by simp)
  rw [hnil]
  rfl

theorem forward_pass_idempotent_witness :
    createRequests (SyncFromGitHub sampleService sampleRemote).calls ≠ [] ∧
    createRequests
      (SyncFromGitHub sampleService (SyncFromGitHub sampleService sampleRemote).state).calls
      = [] :=
  ⟨by decide,
    (forward_pass_idempotent "P1".toList Char.toLower sampleRemote (by decide) (by decide)).2.2⟩

/-! ## A full pass -/

/-- C8, refuted as stated.  Issue 7 is open and labelled `urgent`; its task is
completed and has the stale priority 1.  Every call of the full pass succeeds, and
the pass issues `ReopenTask` for the task in its forward half and then finds the
task open: there is no `UpdateIssueState` call at all, so no close call on the issue. -/
theorem full_pass_precedence_counterexample :
    (∀ t ∈ samplePrecedenceRemote.tasks, t.IsCompleted = true ∧
      extractGitHubIssueNumber t.Description = 7 ∧
      t.Priority ≠ GetLabelPriority Char.toLower ["urgent".toList]) ∧
    (∀ i ∈ samplePrecedenceRemote.issues, i.Number = 7 ∧ i.State = "open".toList ∧
      i.Labels = ["urgent".toList] ∧ i.IsPullReq = false) ∧
    (FullSync sampleService samplePrecedenceRemote).result = none ∧
    (FullSync sampleService samplePrecedenceRemote).calls =
      [Call.GetIssues, Call.GetTasks "P1".toList, Call.ReopenTask "t7".toList,
        Call.GetTasks "P1".toList, Call.GetIssue 7] ∧
    Call.UpdateIssueState 7 "closed".toList ∉ (FullSync sampleService samplePrecedenceRemote).calls := by
  refine ⟨by decide, by decide, by decide, by decide, by decide⟩

/-- What a task stored in `taskMap` looks like: it was fetched, and its description
parses to the key, which is not 0. -/
theorem foldl_taskMap_some (k : Int) (t : Task) : ∀ (tasks : List Task) (m : TaskMap),
    (tasks.foldl
      (fun taskMap task =>
        let issueNum := extractGitHubIssueNumber task.Description
        if issueNum ≠ 0 then fun k => if k = issueNum then some task else taskMap k
        else taskMap) m) k = some t →
    m k = some t ∨ (t ∈ tasks ∧ extractGitHubIssueNumber t.Description = k ∧ k ≠ 0)
  | [], m, h => Or.inl h
  | a :: tasks, m, h => by
    rw [List.foldl_cons] at h
    rcases foldl_taskMap_some k t tasks _ h with h1 | ⟨h1, h2, h3⟩
    · by_cases h0 : extractGitHubIssueNumber a.Description = 0
      · simp only [ne_eq, h0, not_true_eq_false, if_false] at h1
        exact Or.inl h1
      · simp only [ne_eq, h0, not_false_eq_true, if_true] at h1
        by_cases hk : k = extractGitHubIssueNumber a.Description
        · rw [if_pos hk] at h1
          have hat : a = t := Option.some.inj h1
          subst hat
          exact Or.inr ⟨List.mem_cons_self _ _, hk.symm, by rw [hk]; exact h0⟩
        · rw [if_neg hk] at h1
          exact Or.inl h1
    · exact Or.inr ⟨List.mem_cons_of_mem _ h1, h2, h3⟩

theorem buildTaskMap_some (tasks : List Task) (k : Int) (t : Task)
    (h : buildTaskMap tasks k = some t) :
    t ∈ tasks ∧ extractGitHubIssueNumber t.Description = k ∧ k ≠ 0 := by
  rcases foldl_taskMap_some k t tasks (fun _ => none) h with h1 | h1
  · exact absurd h1 (by simp)
  · exact h1

/-- The effect of `updateTodoistTask` on the remote: the tasks are mapped through a
function that keeps IDs and descriptions and leaves every task with another ID
alone; the issues stay; every call acts on the task. -/
theorem ideal_update_effect (s : Service Remote) (hs : s.remote = idealRemote) (task : Task)
    (issue : Issue) (w : Remote) :
    ∃ f : Task → Task,
      (updateTodoistTask s task issue w).state.tasks = w.tasks.map f ∧
      (updateTodoistTask s task issue w).state.issues = w.issues ∧
      (∀ t, (f t).ID = t.ID ∧ (f t).Description = t.Description) ∧
      (∀ t, t.ID ≠ task.ID → f t = t) ∧
      (∀ c ∈ (updateTodoistTask s task issue w).calls, c.taskID = some task.ID) := by
  have hap : ∀ (u : Updates) (t : Task), (applyUpdates u t).ID = t.ID := by
    intro u t
    unfold applyUpdates
    split <;> split <;> rfl
  unfold updateTodoistTask
  simp only [hs, idealRemote]
  split
  · split
    · refine ⟨fun t => if t.ID = task.ID then { t with IsCompleted := true } else t,
        rfl, rfl, fun t => ?_, fun t ht => if_neg ht, ?_⟩
      · by_cases ht : t.ID = task.ID <;> simp [ht]
      · intro c hc
        rw [List.mem_singleton.1 hc]
        rfl
    · refine ⟨fun t => if t.ID = task.ID then { t with IsCompleted := false } else t,
        rfl, rfl, fun t => ?_, fun t ht => if_neg ht, ?_⟩
      · by_cases ht : t.ID = task.ID <;> simp [ht]
      · intro c hc
        rw [List.mem_singleton.1 hc]
        rfl
  · split
    · refine ⟨fun t => if t.ID = task.ID then
          applyUpdates (collectUpdates s.lower task issue) t else t,
        rfl, rfl, fun t => ?_, fun t ht => if_neg ht, ?_⟩
      · by_cases ht : t.ID = task.ID
        · simp only [if_pos ht]
          exact ⟨hap _ _, applyUpdates_Description _ _⟩
        · simp [ht]
      · intro c hc
        rw [List.mem_singleton.1 hc]
        rfl
    · refine ⟨id, by simp, rfl, fun t => ⟨rfl, rfl⟩, fun t _ => rfl, ?_⟩
      intro c hc
      exact absurd hc (List.not_mem_nil _)

theorem MarkerOwnedBy_map (n : Int) (tid : Str) (st st2 : Remote) (f : Task → Task)
    (htasks : st2.tasks = st.tasks.map f)
    (hf : ∀ t, (f t).ID = t.ID ∧ (f t).Description = t.Description)
    (h : MarkerOwnedBy n tid st) : MarkerOwnedBy n tid st2 := by
  intro t ht hn
  rw [htasks] at ht
  obtain ⟨t0, ht0, rfl⟩ := List.mem_map.1 ht
  rw [(hf t0).2] at hn
  rw [(hf t0).1]
  exact h t0 ht0 hn

theorem TaskOpen_map (tid other : Str) (st st2 : Remote) (f : Task → Task)
    (htasks : st2.tasks = st.tasks.map f)
    (hf : ∀ t, (f t).ID = t.ID ∧ (f t).Description = t.Description)
    (hother : ∀ t, t.ID ≠ other → f t = t) (hne : other ≠ tid)
    (h : TaskOpen tid st) : TaskOpen tid st2 := by
  intro t ht hid
  rw [htasks] at ht
  obtain ⟨t0, ht0, rfl⟩ := List.mem_map.1 ht
  have hid0 : t0.ID = tid := by rw [← (hf t0).1]; exact hid
  have hsame : f t0 = t0 := hother t0 (by rw [hid0]; exact fun e => hne e.symm)
  rw [hsame]
  exact h t0 ht0 hid0

/-- A step of the forward loop for an issue with another number than `n` leaves
the issues alone, keeps both invariants of the task `tid`, and issues no call on
that task and no state update of an issue. -/
theorem ideal_forwardStep_other (s : Service Remote) (hs : s.remote = idealRemote)
    (taskMap : TaskMap) (n : Int) (tid : Str)
    (hmap : ∀ k t, taskMap k = some t → k ≠ n → t.ID ≠ tid)
    (j : Issue) (hj : j.Number ≠ n) (hint : GoInt j.Number) (st : Remote) :
    (forwardStep s taskMap j st).state.issues = st.issues ∧
    (MarkerOwnedBy n tid st → MarkerOwnedBy n tid (forwardStep s taskMap j st).state) ∧
    (TaskOpen tid st → TaskOpen tid (forwardStep s taskMap j st).state) ∧
    (∀ c ∈ (forwardStep s taskMap j st).calls,
      c.taskID ≠ some tid ∧ ∀ k x, c ≠ Call.UpdateIssueState k x) := by
  unfold forwardStep
  by_cases hpr : j.IsPullReq = true
  · simp only [hpr, if_true]
    exact ⟨trivial, fun h => h, fun h => h, fun c hc => absurd hc (List.not_mem_nil _)⟩
  · have hpr2 : j.IsPullReq = false := by simpa using hpr
    simp only [hpr2, Bool.false_eq_true, if_false]
    cases hm : taskMap j.Number with
    | none =>
      have hround := extract_FormatGitHubReference j.Number j.HTMLURL hint
      simp only [createTodoistTask, hs, idealRemote]
      refine ⟨trivial, ?_, ?_, ?_⟩
      · intro h t ht hn
        rcases List.mem_append.1 ht with ht | ht
        · exact h t ht hn
        · rw [List.mem_singleton.1 ht] at hn
          simp only [createdTask] at hn
          rw [hround] at hn
          exact absurd hn hj
      · intro h t ht hid
        rcases List.mem_append.1 ht with ht | ht
        · exact h t ht hid
        · rw [List.mem_singleton.1 ht]
          rfl
      · intro c hc
        rw [List.mem_singleton.1 hc]
        exact ⟨by simp [Call.taskID], fun k x => by simp⟩
    | some existingTask =>
      obtain ⟨f, h1, h2, h3, h4, h5⟩ := ideal_update_effect s hs existingTask j st
      have hne : existingTask.ID ≠ tid := hmap _ _ hm hj
      refine ⟨h2, fun h => MarkerOwnedBy_map n tid st _ f h1 h3 h,
        fun h => TaskOpen_map tid existingTask.ID st _ f h1 h3 h4 hne h, ?_⟩
      intro c hc
      have hc2 := h5 c hc
      refine ⟨?_, ?_⟩
      · rw [hc2]
        exact fun e => hne (Option.some.inj e)
      · intro k x e
        rw [e] at hc2
        simp [Call.taskID] at hc2

theorem ideal_forwardLoop_others (s : Service Remote) (hs : s.remote = idealRemote)
    (taskMap : TaskMap) (n : Int) (tid : Str)
    (hmap : ∀ k t, taskMap k = some t → k ≠ n → t.ID ≠ tid) :
    ∀ (issues : List Issue) (c : Nat) (st : Remote),
      (∀ j ∈ issues, j.Number ≠ n ∧ GoInt j.Number) →
      (forwardLoop s taskMap issues c st).state.issues = st.issues ∧
      (MarkerOwnedBy n tid st →
        MarkerOwnedBy n tid (forwardLoop s taskMap issues c st).state) ∧
      (TaskOpen tid st → TaskOpen tid (forwardLoop s taskMap issues c st).state) ∧
      (∀ c2 ∈ (forwardLoop s taskMap issues c st).calls,
        c2.taskID ≠ some tid ∧ ∀ k x, c2 ≠ Call.UpdateIssueState k x)
  | [], _, _, _ => ⟨rfl, fun h => h, fun h => h, fun c hc => absurd hc (List.not_mem_nil _)⟩
  | j :: rest, c, st, hall => by
    obtain ⟨hj, hint⟩ := hall j (List.mem_cons_self _ _)
    obtain ⟨a1, a2, a3, a4⟩ := ideal_forwardStep_other s hs taskMap n tid hmap j hj hint st
    obtain ⟨b1, b2, b3, b4⟩ := ideal_forwardLoop_others s hs taskMap n tid hmap rest
      (if (forwardStep s taskMap j st).result = true then c + 1 else c)
      (forwardStep s taskMap j st).state (fun k hk => hall k (List.mem_cons_of_mem _ hk))
    simp only [forwardLoop]
    refine ⟨b1.trans a1, fun h => b2 (a2 h), fun h => b3 (a3 h), ?_⟩
    intro c2 hc2
    rcases List.mem_append.1 hc2 with h | h
    · exact a4 c2 h
    · exact b4 c2 h

/-- The step of the forward loop for an open issue whose task `t` is completed:
the one call is `ReopenTask`, after which every task with that ID is open. -/
theorem ideal_forwardStep_reopen (s : Service Remote) (hs : s.remote = idealRemote)
    (taskMap : TaskMap) (n : Int) (i : Issue) (t : Task)
    (hmap : taskMap i.Number = some t) (hdone : t.IsCompleted = true)
    (hopen : i.State = "open".toList) (hissue : i.IsPullReq = false) (st : Remote) :
    (forwardStep s taskMap i st).calls = [Call.ReopenTask t.ID] ∧
    (forwardStep s taskMap i st).state.issues = st.issues ∧
    (MarkerOwnedBy n t.ID st → MarkerOwnedBy n t.ID (forwardStep s taskMap i st).state) ∧
    TaskOpen t.ID (forwardStep s taskMap i st).state := by
  have hst : ¬ i.State = "closed".toList := by
    rw [hopen]
    decide
  have hup : updateTodoistTask s t i st =
      { result := (s.remote.ReopenTask t.ID st).1, state := (s.remote.ReopenTask t.ID st).2,
        calls := [Call.ReopenTask t.ID] } := by
    unfold updateTodoistTask
    simp only [hdone, hst, decide_False, ne_eq, not_false_eq_true, if_true, Bool.false_eq_true,
      if_false]
    rfl
  unfold forwardStep
  simp only [hissue, Bool.false_eq_true, if_false, hmap, hup, hs, idealRemote]
  refine ⟨trivial, trivial, ?_, ?_⟩
  · intro h
    refine MarkerOwnedBy_map n t.ID st _
      (fun x => if x.ID = t.ID then { x with IsCompleted := false } else x) rfl ?_ h
    intro x
    by_cases hx : x.ID = t.ID <;> simp [hx]
  · intro x hx hid
    obtain ⟨x0, _, rfl⟩ := List.mem_map.1 hx
    by_cases hx0 : x0.ID = t.ID
    · simp [hx0]
    · simp only [if_neg hx0] at hid
      exact absurd hid hx0

/-- The forward loop over issues with pairwise distinct numbers, one of which is
open with a completed task `t`: the task ends up open, `ReopenTask` is among the
calls, it is the only call on the task, and no issue state is updated. -/
theorem ideal_forwardLoop_reopen (s : Service Remote) (hs : s.remote = idealRemote)
    (taskMap : TaskMap) (n : Int) (i : Issue) (t : Task)
    (hmapi : taskMap i.Number = some t) (hdone : t.IsCompleted = true)
    (hopen : i.State = "open".toList) (hissue : i.IsPullReq = false)
    (hmap : ∀ k t2, taskMap k = some t2 → k ≠ n → t2.ID ≠ t.ID)
    (post : List Issue) (hpost : ∀ j ∈ post, j.Number ≠ n ∧ GoInt j.Number) :
    ∀ (pre : List Issue) (c : Nat) (st : Remote),
      (∀ j ∈ pre, j.Number ≠ n ∧ GoInt j.Number) →
      (forwardLoop s taskMap (pre ++ i :: post) c st).state.issues = st.issues ∧
      (MarkerOwnedBy n t.ID st →
        MarkerOwnedBy n t.ID (forwardLoop s taskMap (pre ++ i :: post) c st).state) ∧
      TaskOpen t.ID (forwardLoop s taskMap (pre ++ i :: post) c st).state ∧
      Call.ReopenTask t.ID ∈ (forwardLoop s taskMap (pre ++ i :: post) c st).calls ∧
      (∀ c2 ∈ (forwardLoop s taskMap (pre ++ i :: post) c st).calls,
        (c2.taskID = some t.ID → c2 = Call.ReopenTask t.ID) ∧
        ∀ k x, c2 ≠ Call.UpdateIssueState k x)
  | [], c, st, _ => by
    obtain ⟨a1, a2, a3, a4⟩ :=
      ideal_forwardStep_reopen s hs taskMap n i t hmapi hdone hopen hissue st
    obtain ⟨b1, b2, b3, b4⟩ := ideal_forwardLoop_others s hs taskMap n t.ID hmap post
      (if (forwardStep s taskMap i st).result = true then c + 1 else c)
      (forwardStep s taskMap i st).state hpost
    show (forwardLoop s taskMap (i :: post) c st).state.issues = st.issues ∧
      (MarkerOwnedBy n t.ID st →
        MarkerOwnedBy n t.ID (forwardLoop s taskMap (i :: post) c st).state) ∧
      TaskOpen t.ID (forwardLoop s taskMap (i :: post) c st).state ∧
      Call.ReopenTask t.ID ∈ (forwardLoop s taskMap (i :: post) c st).calls ∧
      (∀ c2 ∈ (forwardLoop s taskMap (i :: post) c st).calls,
        (c2.taskID = some t.ID → c2 = Call.ReopenTask t.ID) ∧
        ∀ k x, c2 ≠ Call.UpdateIssueState k x)
    simp only [forwardLoop]
    refine ⟨b1.trans a2, fun h => b2 (a3 h), b3 a4, ?_, ?_⟩
    · rw [a1]
      exact List.mem_append_left _ (List.mem_singleton.2 rfl)
    · intro c2 hc2
      rcases List.mem_append.1 hc2 with h | h
      · rw [a1] at h
        rw [List.mem_singleton.1 h]
        exact ⟨fun _ => rfl, fun k x => by simp⟩
      · exact ⟨fun e => absurd e (b4 c2 h).1, (b4 c2 h).2⟩
  | j :: pre, c, st, hpre => by
    obtain ⟨hj, hint⟩ := hpre j (List.mem_cons_self _ _)
    obtain ⟨a1, a2, _, a4⟩ := ideal_forwardStep_other s hs taskMap n t.ID hmap j hj hint st
    obtain ⟨b1, b2, b3, b4, b5⟩ := ideal_forwardLoop_reopen s hs taskMap n i t hmapi hdone
      hopen hissue hmap post hpost pre
      (if (forwardStep s taskMap j st).result = true then c + 1 else c)
      (forwardStep s taskMap j st).state (fun k hk => hpre k (List.mem_cons_of_mem _ hk))
    show (forwardLoop s taskMap (j :: (pre ++ i :: post)) c st).state.issues = st.issues ∧
      (MarkerOwnedBy n t.ID st →
        MarkerOwnedBy n t.ID (forwardLoop s taskMap (j :: (pre ++ i :: post)) c st).state) ∧
      TaskOpen t.ID (forwardLoop s taskMap (j :: (pre ++ i :: post)) c st).state ∧
      Call.ReopenTask t.ID ∈ (forwardLoop s taskMap (j :: (pre ++ i :: post)) c st).calls ∧
      (∀ c2 ∈ (forwardLoop s taskMap (j :: (pre ++ i :: post)) c st).calls,
        (c2.taskID = some t.ID → c2 = Call.ReopenTask t.ID) ∧
        ∀ k x, c2 ≠ Call.UpdateIssueState k x)
    simp only [forwardLoop]
    refine ⟨b1.trans a1, fun h => b2 (a2 h), b3, List.mem_append_right _ b4, ?_⟩
    intro c2 hc2
    rcases List.mem_append.1 hc2 with h | h
    · exact ⟨fun e => absurd e (a4 c2 h).1, (a4 c2 h).2⟩
    · exact b5 c2 h

/-- Updating the state of an issue with another number keeps the issues numbered
`n` open. -/
theorem IssueOpen_update (n m : Int) (x : Str) (st : Remote) (hne : m ≠ n)
    (h : IssueOpen n st) : IssueOpen n (idealRemote.UpdateIssueState m x st).2 := by
  intro i hi hin
  simp only [idealRemote] at hi
  obtain ⟨i0, hi0, rfl⟩ := List.mem_map.1 hi
  by_cases hi0n : i0.Number = m
  · simp only [if_pos hi0n] at hin
    exact absurd (hi0n.symm.trans hin) hne
  · simp only [if_neg hi0n] at hin ⊢
    exact h i0 hi0 hin

/-- A step of the reverse loop for a task that is open if it is linked to `n`,
while the issues numbered `n` are open: these issues stay open, and the step issues
no state update of number `n` and no call on a task. -/
theorem ideal_reverseStep_keeps (s : Service Remote) (hs : s.remote = idealRemote) (n : Int)
    (t : Task) (ht : extractGitHubIssueNumber t.Description = n → t.IsCompleted = false)
    (st : Remote) (hopen : IssueOpen n st) :
    IssueOpen n (reverseStep s t st).state ∧
    (∀ c ∈ (reverseStep s t st).calls,
      c.taskID = none ∧ ∀ x, c ≠ Call.UpdateIssueState n x) := by
  unfold reverseStep
  by_cases h0 : extractGitHubIssueNumber t.Description = 0
  · simp only [h0, if_true]
    exact ⟨hopen, fun c hc => absurd hc (List.not_mem_nil _)⟩
  · simp only [h0, if_false, hs, idealRemote]
    cases hfind : st.issues.find?
        (fun i => decide (i.Number = extractGitHubIssueNumber t.Description)) with
    | none =>
      refine ⟨hopen, ?_⟩
      intro c hc
      rw [List.mem_singleton.1 hc]
      exact ⟨rfl, fun x => by simp⟩
    | some issue =>
      have hnum : issue.Number = extractGitHubIssueNumber t.Description := by
        simpa using List.find?_some hfind
      have hmem : issue ∈ st.issues := List.mem_of_find?_eq_some hfind
      simp only [syncTaskStateToGitHub, hs]
      by_cases hn : extractGitHubIssueNumber t.Description = n
      · have hstate : issue.State = "open".toList := hopen issue hmem (hnum.trans hn)
        have hnc : ¬ issue.State = "closed".toList := by
          rw [hstate]
          decide
        have hnd : ¬ (t.IsCompleted = true ∧ issue.State = "open".toList) := by
          rw [ht hn]
          simp
        have hnd2 : ¬ (t.IsCompleted = false ∧ issue.State = "closed".toList) :=
          fun h => hnc h.2
        simp only [if_neg hnd, if_neg hnd2]
        refine ⟨hopen, ?_⟩
        intro c hc
        rw [List.mem_singleton.1 hc]
        exact ⟨rfl, fun x => by simp⟩
      · have hne : issue.Number ≠ n := by
          rw [hnum]
          exact hn
        have hkeep : ∀ x : Str,
            IssueOpen n (idealRemote.UpdateIssueState issue.Number x st).2 :=
          fun x => IssueOpen_update n issue.Number x st hne hopen
        have hcall : ∀ x : Str, ∀ c ∈ [Call.GetIssue (extractGitHubIssueNumber t.Description),
            Call.UpdateIssueState issue.Number x],
            c.taskID = none ∧ ∀ y, c ≠ Call.UpdateIssueState n y := by
          intro x c hc
          rcases List.mem_cons.1 hc with h | h
          · rw [h]
            exact ⟨rfl, fun y => by simp⟩
          · rw [List.mem_singleton.1 h]
            exact ⟨rfl, fun y e => hne (by injection e)⟩
        split
        · exact ⟨hkeep _, hcall _⟩
        · split
          · exact ⟨hkeep _, hcall _⟩
          · refine ⟨hopen, ?_⟩
            intro c hc
            rw [List.mem_singleton.1 hc]
            exact ⟨rfl, fun x => by simp⟩

theorem ideal_reverseLoop_keeps (s : Service Remote) (hs : s.remote = idealRemote) (n : Int) :
    ∀ (tasks : List Task) (c : Nat) (st : Remote),
      (∀ t ∈ tasks, extractGitHubIssueNumber t.Description = n → t.IsCompleted = false) →
      IssueOpen n st →
      ∀ c2 ∈ (reverseLoop s tasks c st).calls,
        c2.taskID = none ∧ ∀ x, c2 ≠ Call.UpdateIssueState n x
  | [], _, _, _, _ => fun c hc => absurd hc (List.not_mem_nil _)
  | t :: rest, c, st, htasks, hopen => by
    obtain ⟨a1, a2⟩ := ideal_reverseStep_keeps s hs n t (htasks t (List.mem_cons_self _ _))
      st hopen
    have ih := ideal_reverseLoop_keeps s hs n rest
      (if (reverseStep s t st).result = true then c + 1 else c) (reverseStep s t st).state
      (fun k hk => htasks k (List.mem_cons_of_mem _ hk)) a1
    simp only [reverseLoop]
    intro c2 hc2
    rcases List.mem_append.1 hc2 with h | h
    · exact a2 c2 h
    · exact ih c2 h

/-- A step of the reverse loop changes no issue number. -/
theorem ideal_reverseStep_numbers (s : Service Remote) (hs : s.remote = idealRemote)
    (t : Task) (st : Remote) :
    (reverseStep s t st).state.issues.map (fun j => j.Number)
      = st.issues.map (fun j => j.Number) := by
  have hupd : ∀ (m : Int) (x : Str),
      (idealRemote.UpdateIssueState m x st).2.issues.map (fun j => j.Number)
        = st.issues.map (fun j => j.Number) := by
    intro m x
    simp only [idealRemote, List.map_map]
    refine List.map_congr_left (fun j _ => ?_)
    by_cases hj : j.Number = m <;> simp [hj]
  unfold reverseStep
  by_cases h0 : extractGitHubIssueNumber t.Description = 0
  · simp only [h0, if_true]
  · simp only [h0, if_false, hs, idealRemote]
    cases hfind : st.issues.find?
        (fun i => decide (i.Number = extractGitHubIssueNumber t.Description)) with
    | none => rfl
    | some issue =>
      simp only [syncTaskStateToGitHub, hs]
      split
      · exact hupd _ _
      · split
        · exact hupd _ _
        · rfl

/-- The reverse loop closes the open issue `n` when the fetched tasks linked to `n`
are completed and there is one. -/
theorem ideal_reverseLoop_closes (s : Service Remote) (hs : s.remote = idealRemote) (n : Int)
    (hnz : n ≠ 0) :
    ∀ (tasks : List Task) (c : Nat) (st : Remote),
      (∀ t ∈ tasks, extractGitHubIssueNumber t.Description = n → t.IsCompleted = true) →
      (∃ t ∈ tasks, extractGitHubIssueNumber t.Description = n) →
      IssueOpen n st → n ∈ st.issues.map (fun j => j.Number) →
      Call.UpdateIssueState n "closed".toList ∈ (reverseLoop s tasks c st).calls
  | [], _, _, _, hex, _, _ => by
    obtain ⟨t, ht, _⟩ := hex
    exact absurd ht (List.not_mem_nil _)
  | t :: rest, c, st, hdone, hex, hopen, hnum => by
    simp only [reverseLoop]
    by_cases hn : extractGitHubIssueNumber t.Description = n
    · refine List.mem_append_left _ ?_
      have h0 : ¬ extractGitHubIssueNumber t.Description = 0 := by rw [hn]; exact hnz
      have hcompleted : t.IsCompleted = true := hdone t (List.mem_cons_self _ _) hn
      unfold reverseStep
      simp only [h0, if_false, hs, idealRemote, hn]
      cases hfind : st.issues.find? (fun i => decide (i.Number = n)) with
      | none =>
        obtain ⟨j, hj, hjn⟩ := List.mem_map.1 hnum
        have := List.find?_eq_none.1 hfind j hj
        simp [hjn] at this
      | some issue =>
        have hin : issue.Number = n := by simpa using List.find?_some hfind
        have hstate : issue.State = "open".toList :=
          hopen issue (List.mem_of_find?_eq_some hfind) hin
        have hcond : t.IsCompleted = true ∧ issue.State = "open".toList :=
          ⟨hcompleted, hstate⟩
        simp only [syncTaskStateToGitHub, if_pos hcond, hin]
        rw [if_neg hnz]
        exact List.mem_cons_of_mem _ (List.mem_singleton.2 rfl)
    · refine List.mem_append_right _ ?_
      obtain ⟨a1, _⟩ := ideal_reverseStep_keeps s hs n t (fun e => absurd e hn) st hopen
      have a2 := ideal_reverseStep_numbers s hs t st
      refine ideal_reverseLoop_closes s hs n hnz rest _ _
        (fun k hk => hdone k (List.mem_cons_of_mem _ hk)) ?_ a1 (by rw [a2]; exact hnum)
      obtain ⟨t2, ht2, hn2⟩ := hex
      rcases List.mem_cons.1 ht2 with h | h
      · rw [h] at hn2
        exact absurd hn2 hn
      · exact ⟨t2, h, hn2⟩

/-- The shape of the three passes on the remote in which every call takes effect. -/
theorem ideal_passes (s : Service Remote) (hs : s.remote = idealRemote) (w : Remote) :
    SyncFromGitHub s w =
      { result := none
        state := (forwardLoop s (buildTaskMap w.tasks) w.issues 0 w).state
        calls := [Call.GetIssues, Call.GetTasks s.projectID] ++
          (forwardLoop s (buildTaskMap w.tasks) w.issues 0 w).calls } ∧
    SyncToGitHub s w =
      { result := none
        state := (reverseLoop s w.tasks 0 w).state
        calls := Call.GetTasks s.projectID :: (reverseLoop s w.tasks 0 w).calls } ∧
    (FullSync s w).result = none ∧
    (FullSync s w).calls =
      (SyncFromGitHub s w).calls ++ (SyncToGitHub s (SyncFromGitHub s w).state).calls := by
  have hf : ∀ st : Remote, SyncFromGitHub s st =
      { result := none
        state := (forwardLoop s (buildTaskMap st.tasks) st.issues 0 st).state
        calls := [Call.GetIssues, Call.GetTasks s.projectID] ++
          (forwardLoop s (buildTaskMap st.tasks) st.issues 0 st).calls } := by
    intro st
    unfold SyncFromGitHub
    simp only [hs, idealRemote]
  have hr : ∀ st : Remote, SyncToGitHub s st =
      { result := none
        state := (reverseLoop s st.tasks 0 st).state
        calls := Call.GetTasks s.projectID :: (reverseLoop s st.tasks 0 st).calls } := by
    intro st
    unfold SyncToGitHub
    simp only [hs, idealRemote]
  refine ⟨hf w, hr w, ?_, ?_⟩
  · unfold FullSync
    simp only [hf, hr]
  · unfold FullSync
    simp only [hf, hr]

/-- C8, amended.  Over the remote in which every call takes effect, let an open
issue that is no pull request and a completed task linked to it be among the
fetched issues and tasks, whatever the priority of the task, where issue numbers
are pairwise distinct Go `int`s, no other task carries the marker of the issue and
no other task has the ID of the task.  Then the full pass returns without error,
issues `ReopenTask` for the task, issues no other call on the task (so no
`UpdateTask`), and issues no `UpdateIssueState` for the issue (so no close call);
the reverse pass run on its own from the same state does issue the close call. -/
theorem full_pass_precedence_amended (projectID : Str) (lower : Char → Char) (w : Remote)
    (i : Issue) (t : Task)
    (hi : i ∈ w.issues) (ht : t ∈ w.tasks)
    (hlinked : extractGitHubIssueNumber t.Description = i.Number)
    (hnz : i.Number ≠ 0)
    (hdone : t.IsCompleted = true)
    (hopen : i.State = "open".toList)
    (hissue : i.IsPullReq = false)
    (hnumbers : (w.issues.map (fun j => j.Number)).Nodup)
    (hint : ∀ j ∈ w.issues, GoInt j.Number)
    (honly : ∀ t2 ∈ w.tasks, extractGitHubIssueNumber t2.Description = i.Number → t2 = t)
    (hid : ∀ t2 ∈ w.tasks, t2.ID = t.ID → t2 = t) :
    (FullSync { remote := idealRemote, projectID := projectID, lower := lower } w).result
      = none ∧
    Call.ReopenTask t.ID ∈
      (FullSync { remote := idealRemote, projectID := projectID, lower := lower } w).calls ∧
    (∀ c ∈ (FullSync { remote := idealRemote, projectID := projectID, lower := lower } w).calls,
      c.taskID = some t.ID → c = Call.ReopenTask t.ID) ∧
    (∀ x, Call.UpdateIssueState i.Number x ∉
      (FullSync { remote := idealRemote, projectID := projectID, lower := lower } w).calls) ∧
    Call.UpdateIssueState i.Number "closed".toList ∈
      (SyncToGitHub { remote := idealRemote, projectID := projectID, lower := lower } w).calls := by
  generalize hsdef :
    ({ remote := idealRemote, projectID := projectID, lower := lower } : Service Remote) = s
  have hs : s.remote = idealRemote := by rw [← hsdef]
  obtain ⟨hf, hr0, hres, hcalls⟩ := ideal_passes s hs w
  obtain ⟨_, hr, _, _⟩ := ideal_passes s hs (SyncFromGitHub s w).state
  -- the issue list around the issue
  obtain ⟨pre, post, hsplit⟩ := List.append_of_mem hi
  have hnd : (i.Number :: (pre.map (fun j => j.Number) ++ post.map (fun j => j.Number))).Nodup := by
    have := hnumbers
    rw [hsplit, List.map_append, List.map_cons] at this
    exact List.nodup_middle.1 this
  have hnot := (List.nodup_cons.1 hnd).1
  have hpre : ∀ j ∈ pre, j.Number ≠ i.Number ∧ GoInt j.Number := by
    intro j hj
    refine ⟨fun e => hnot ?_, hint j (by rw [hsplit]; exact List.mem_append_left _ hj)⟩
    rw [← e]
    exact List.mem_append_left _ (List.mem_map_of_mem _ hj)
  have hpost : ∀ j ∈ post, j.Number ≠ i.Number ∧ GoInt j.Number := by
    intro j hj
    refine ⟨fun e => hnot ?_, hint j (by
      rw [hsplit]; exact List.mem_append_right _ (List.mem_cons_of_mem _ hj))⟩
    rw [← e]
    exact List.mem_append_right _ (List.mem_map_of_mem _ hj)
  -- the task map at the issue and elsewhere
  have hmapi : buildTaskMap w.tasks i.Number = some t := by
    have hsome : (buildTaskMap w.tasks i.Number).isSome = true := by
      rw [buildTaskMap_isSome, hasLinkedTask_iff]
      exact ⟨t.Description, List.mem_map_of_mem _ ht, by rw [hlinked]; exact hnz, hlinked⟩
    obtain ⟨t2, ht2⟩ := Option.isSome_iff_exists.1 hsome
    obtain ⟨h1, h2, _⟩ := buildTaskMap_some w.tasks i.Number t2 ht2
    rw [ht2, honly t2 h1 h2]
  have hmap : ∀ k t2, buildTaskMap w.tasks k = some t2 → k ≠ i.Number → t2.ID ≠ t.ID := by
    intro k t2 hk hne e
    obtain ⟨h1, h2, _⟩ := buildTaskMap_some w.tasks k t2 hk
    rw [hid t2 h1 e, hlinked] at h2
    exact hne h2.symm
  have hown : MarkerOwnedBy i.Number t.ID w := by
    intro t2 ht2 hn
    rw [honly t2 ht2 hn]
  -- the forward pass
  obtain ⟨f1, f2, f3, f4, f5⟩ := ideal_forwardLoop_reopen s hs (buildTaskMap w.tasks) i.Number
    i t hmapi hdone hopen hissue hmap post hpost pre 0 w hpre
  rw [← hsplit] at f1 f2 f3 f4 f5
  have hstate : (SyncFromGitHub s w).state
      = (forwardLoop s (buildTaskMap w.tasks) w.issues 0 w).state := by rw [hf]
  have hfcalls : (SyncFromGitHub s w).calls
      = [Call.GetIssues, Call.GetTasks s.projectID] ++
        (forwardLoop s (buildTaskMap w.tasks) w.issues 0 w).calls := by rw [hf]
  -- the reverse pass
  have hissues : IssueOpen i.Number (SyncFromGitHub s w).state := by
    intro j hj hjn
    rw [hstate, f1] at hj
    have hji : j = i := List.inj_on_of_nodup_map hnumbers hj hi hjn
    rw [hji]
    exact hopen
  have htasks : ∀ t2 ∈ (SyncFromGitHub s w).state.tasks,
      extractGitHubIssueNumber t2.Description = i.Number → t2.IsCompleted = false := by
    intro t2 ht2 hn
    rw [hstate] at ht2
    exact f3 t2 ht2 (f2 hown t2 ht2 hn)
  have hrev := ideal_reverseLoop_keeps s hs i.Number (SyncFromGitHub s w).state.tasks 0
    (SyncFromGitHub s w).state htasks hissues
  have hrcalls : (SyncToGitHub s (SyncFromGitHub s w).state).calls
      = Call.GetTasks s.projectID ::
        (reverseLoop s (SyncFromGitHub s w).state.tasks 0 (SyncFromGitHub s w).state).calls := by
    rw [hr]
  have hopen0 : IssueOpen i.Number w := by
    intro j hj hjn
    rw [List.inj_on_of_nodup_map hnumbers hj hi hjn]
    exact hopen
  have halone := ideal_reverseLoop_closes s hs i.Number hnz w.tasks 0 w
    (fun t2 ht2 hn => by rw [honly t2 ht2 hn]; exact hdone) ⟨t, ht, hlinked⟩ hopen0
    (List.mem_map_of_mem _ hi)
  refine ⟨hres, ?_, ?_, ?_, by rw [hr0]; exact List.mem_cons_of_mem _ halone⟩
  · rw [hcalls, hfcalls]
    exact List.mem_append_left _ (List.mem_append_right _ f4)
  · intro c hc htid
    rw [hcalls, hfcalls, hrcalls] at hc
    rcases List.mem_append.1 hc with h | h
    · rcases List.mem_append.1 h with h | h
      · rcases List.mem_cons.1 h with h | h
        · rw [h] at htid
          exact absurd htid (by simp [Call.taskID])
        · rw [List.mem_singleton.1 h] at htid
          exact absurd htid (by simp [Call.taskID])
      · exact (f5 c h).1 htid
    · rcases List.mem_cons.1 h with h | h
      · rw [h] at htid
        exact absurd htid (by simp [Call.taskID])
      · rw [(hrev c h).1] at htid
        exact absurd htid (by simp)
  · intro x hx
    rw [hcalls, hfcalls, hrcalls] at hx
    rcases List.mem_append.1 hx with h | h
    · rcases List.mem_append.1 h with h | h
      · exact absurd h (by simp)
      · exact (f5 _ h).2 i.Number x rfl
    · rcases List.mem_cons.1 h with h | h
      · exact absurd h (by simp)
      · exact (hrev _ h).2 x rfl

theorem full_pass_precedence_amended_witness :
    (FullSync sampleService samplePrecedenceRemote).calls =
      [Call.GetIssues, Call.GetTasks "P1".toList, Call.ReopenTask "t7".toList,
        Call.GetTasks "P1".toList, Call.GetIssue 7] ∧
    ∀ x, Call.UpdateIssueState 7 x ∉ (FullSync sampleService samplePrecedenceRemote).calls :=
  ⟨by decide,
    (full_pass_precedence_amended "P1".toList Char.toLower samplePrecedenceRemote
      (sampleIssue 7 "open".toList ["urgent".toList] false)
      (sampleTask "t7".toList "GitHub Issue #7: https://github.com/o/r/issues/7".toList true 1)
      (by decide) (by decide) (by decide) (by decide) rfl rfl rfl (by decide) (by decide)
      (by decide) (by decide)).2.2.2.1⟩

/-- The forward pass fails exactly when one of its two fetches fails, and then it
has issued nothing but these fetches. -/
theorem SyncFromGitHub_error_iff {σ : Type} (s : Service σ) (w : σ) :
    ((SyncFromGitHub s w).result ≠ none ↔
      ((∃ e, (s.remote.GetIssues w).1 = Except.error e) ∨
        ∃ e, (s.remote.GetTasks s.projectID (s.remote.GetIssues w).2).1 = Except.error e ∧
          ∃ issues, (s.remote.GetIssues w).1 = Except.ok issues)) ∧
    ((SyncFromGitHub s w).result ≠ none →
      (SyncFromGitHub s w).calls = [Call.GetIssues] ∨
      (SyncFromGitHub s w).calls = [Call.GetIssues, Call.GetTasks s.projectID]) := by
  cases h1 : (s.remote.GetIssues w).1 with
  | error e =>
    unfold SyncFromGitHub
    simp only [h1]
    simp
  | ok issues =>
    cases h2 : (s.remote.GetTasks s.projectID (s.remote.GetIssues w).2).1 with
    | error e =>
      unfold SyncFromGitHub
      simp only [h1, h2]
      simp
    | ok tasks =>
      unfold SyncFromGitHub
      simp only [h1, h2]
      simp

/-- C9. Hard versus item-local errors: `FullSync` returns an error exactly when the
issue fetch of the forward pass fails, or its task fetch fails, or the forward pass
succeeds and the task fetch of the reverse pass fails; the outcome of no other call
enters this condition.  When the forward pass returns an error the calls of
`FullSync` are those of the forward pass, which are the failed fetches alone: no
call of the reverse pass is issued. -/
theorem full_sync_hard_errors {σ : Type} (s : Service σ) (w : σ) :
    ((FullSync s w).result ≠ none ↔
      ((∃ e, (s.remote.GetIssues w).1 = Except.error e) ∨
        (∃ e, (s.remote.GetTasks s.projectID (s.remote.GetIssues w).2).1 = Except.error e ∧
          ∃ issues, (s.remote.GetIssues w).1 = Except.ok issues) ∨
        ((SyncFromGitHub s w).result = none ∧
          ∃ e, (s.remote.GetTasks s.projectID (SyncFromGitHub s w).state).1
            = Except.error e))) ∧
    ((SyncFromGitHub s w).result ≠ none →
      (FullSync s w).calls = (SyncFromGitHub s w).calls ∧
      (FullSync s w).state = (SyncFromGitHub s w).state ∧
      ((FullSync s w).calls = [Call.GetIssues] ∨
        (FullSync s w).calls = [Call.GetIssues, Call.GetTasks s.projectID])) := by
  obtain ⟨hiff, hcalls⟩ := SyncFromGitHub_error_iff s w
  have hrev : (SyncToGitHub s (SyncFromGitHub s w).state).result ≠ none ↔
      ∃ e, (s.remote.GetTasks s.projectID (SyncFromGitHub s w).state).1 = Except.error e := by
    cases h3 : (s.remote.GetTasks s.projectID (SyncFromGitHub s w).state).1 <;>
      (unfold SyncToGitHub; simp only [h3]; simp)
  refine ⟨?_, ?_⟩
  · cases hf : (SyncFromGitHub s w).result with
    | some e =>
      have hne : (SyncFromGitHub s w).result ≠ none := by rw [hf]; simp
      have hfull : (FullSync s w).result ≠ none := by
        unfold FullSync
        simp [hf]
      constructor
      · intro _
        rcases hiff.1 hne with h | h
        · exact Or.inl h
        · exact Or.inr (Or.inl h)
      · intro _
        exact hfull
    | none =>
      have hnot : ¬ ((∃ e, (s.remote.GetIssues w).1 = Except.error e) ∨
          ∃ e, (s.remote.GetTasks s.projectID (s.remote.GetIssues w).2).1 = Except.error e ∧
            ∃ issues, (s.remote.GetIssues w).1 = Except.ok issues) := by
        intro h
        exact (hiff.2 h) hf
      have hfull : (FullSync s w).result ≠ none ↔
          (SyncToGitHub s (SyncFromGitHub s w).state).result ≠ none := by
        cases h4 : (SyncToGitHub s (SyncFromGitHub s w).state).result <;>
          (unfold FullSync; simp [hf, h4])
      rw [hfull, hrev]
      constructor
      · intro h
        exact Or.inr (Or.inr ⟨rfl, h⟩)
      · intro h
        rcases h with h | h | h
        · exact absurd (Or.inl h) hnot
        · exact absurd (Or.inr h) hnot
        · exact h.2
  · intro hne
    have h1 : (FullSync s w).calls = (SyncFromGitHub s w).calls ∧
        (FullSync s w).state = (SyncFromGitHub s w).state := by
      cases hf : (SyncFromGitHub s w).result with
      | some e =>
        unfold FullSync
        simp only [hf]
        exact ⟨trivial, trivial⟩
      | none => exact absurd hf hne
    refine ⟨h1.1, h1.2, ?_⟩
    rw [h1.1]
    exact hcalls hne

theorem full_sync_hard_errors_witness :
    (FullSync sampleOutageService sampleRemote).result ≠ none ∧
    (FullSync sampleOutageService sampleRemote).calls
      = [Call.GetIssues, Call.GetTasks "P1".toList] :=
  ⟨(full_sync_hard_errors sampleOutageService sampleRemote).1.2
      (Or.inr (Or.inl ⟨"503 Service Unavailable".toList, rfl, sampleRemote.issues, rfl⟩)),
    ((full_sync_hard_errors sampleOutageService sampleRemote).2 (by decide)).1.trans
      (by decide)⟩

/-! ## Pull requests -/

/-- C10, the reverse pass at a pull request.  Number 5 is an open pull request and a
completed task carries its marker.  The forward pass skips the pull request and
issues nothing but its two fetches; the reverse pass fetches number 5, receives an
issue flagged as a pull request, and closes it all the same. -/
theorem reverse_pass_closes_pull_request :
    (∀ i ∈ samplePullRequestRemote.issues, i.Number = 5 ∧ i.IsPullReq = true) ∧
    (idealRemote.GetIssue 5 samplePullRequestRemote).1
      = Except.ok (sampleIssue 5 "open".toList [] true) ∧
    (SyncFromGitHub sampleService samplePullRequestRemote).calls
      = [Call.GetIssues, Call.GetTasks "P1".toList] ∧
    (SyncToGitHub sampleService samplePullRequestRemote).calls
      = [Call.GetTasks "P1".toList, Call.GetIssue 5,
          Call.UpdateIssueState 5 "closed".toList] ∧
    (FullSync sampleService samplePullRequestRemote).calls
      = [Call.GetIssues, Call.GetTasks "P1".toList, Call.GetTasks "P1".toList, Call.GetIssue 5,
          Call.UpdateIssueState 5 "closed".toList] := by
  refine ⟨by decide, rfl, by decide, by decide, by decide⟩

/-! ## The linked task -/

/-- Tasks whose description parses to another number leave the entry of `n` alone. -/
theorem foldl_taskMap_skip (n : Int) : ∀ (tasks : List Task) (m : TaskMap),
    (∀ t ∈ tasks, extractGitHubIssueNumber t.Description ≠ n) →
    (tasks.foldl
      (fun taskMap task =>
        let issueNum := extractGitHubIssueNumber task.Description
        if issueNum ≠ 0 then fun k => if k = issueNum then some task else taskMap k
        else taskMap) m) n = m n
  | [], _, _ => rfl
  | a :: tasks, m, h => by
    have ha : ¬ n = extractGitHubIssueNumber a.Description :=
      fun e => h a (List.mem_cons_self _ _) e.symm
    rw [List.foldl_cons, foldl_taskMap_skip n tasks _
      (fun t ht => h t (List.mem_cons_of_mem _ ht))]
    by_cases h0 : extractGitHubIssueNumber a.Description = 0
    · simp [h0]
    · simp [h0, ha]

/-- The entry of `n` in `taskMap` is the last fetched task whose description parses
to `n`. -/
theorem buildTaskMap_last (pre post : List Task) (t : Task) (n : Int)
    (ht : extractGitHubIssueNumber t.Description = n) (hnz : n ≠ 0)
    (hpost : ∀ t2 ∈ post, extractGitHubIssueNumber t2.Description ≠ n) :
    buildTaskMap (pre ++ t :: post) n = some t := by
  have h0 : ¬ extractGitHubIssueNumber t.Description = 0 := by
    rw [ht]
    exact hnz
  unfold buildTaskMap
  rw [List.foldl_append, List.foldl_cons, foldl_taskMap_skip n post _ hpost]
  simp only [ne_eq, h0, not_false_eq_true, if_true, ht]
  rw [if_pos hnz]
  simp

theorem buildTaskMap_none_iff (tasks : List Task) (n : Int) :
    buildTaskMap tasks n = none ↔
      (n = 0 ∨ ∀ t ∈ tasks, extractGitHubIssueNumber t.Description ≠ n) := by
  have hsome := buildTaskMap_isSome tasks n
  constructor
  · intro hnone
    rw [hnone] at hsome
    by_cases hn : n = 0
    · exact Or.inl hn
    · refine Or.inr (fun t ht e => ?_)
      have hl : hasLinkedTask tasks n = true :=
        (hasLinkedTask_iff tasks n).2
          ⟨t.Description, List.mem_map_of_mem _ ht, by rw [e]; exact hn, e⟩
      rw [hl] at hsome
      exact absurd hsome (by simp)
  · intro h
    cases hm : buildTaskMap tasks n with
    | none => rfl
    | some t =>
      obtain ⟨h1, h2, h3⟩ := buildTaskMap_some tasks n t hm
      rcases h with h | h
      · exact absurd h h3
      · exact absurd h2 (h t h1)

/-- C11, refuted as stated.  Two fetched tasks carry the marker of issue 7: the
first whose description contains `GitHub Issue #7:` is `tA`, the pass acts on `tB`.
A description that names issue 12 first contains `GitHub Issue #7:`, yet issue 7
is treated as unlinked; a description `GitHub Issue #7` does not contain that text,
yet issue 7 is treated as linked. -/
theorem linked_task_selection_counterexample :
    linkedTaskSpec sampleDuplicateRemote.tasks 7 =
      some (sampleTask "tA".toList "GitHub Issue #7: https://github.com/o/r/issues/7".toList
        false 1) ∧
    buildTaskMap sampleDuplicateRemote.tasks 7 =
      some (sampleTask "tB".toList "GitHub Issue #7: https://github.com/o/r/issues/7".toList
        false 1) ∧
    (SyncFromGitHub sampleService sampleDuplicateRemote).calls =
      [Call.GetIssues, Call.GetTasks "P1".toList, Call.CloseTask "tB".toList] ∧
    Contains sampleTwoMarkerTask.Description (markerText 7) = true ∧
    buildTaskMap [sampleTwoMarkerTask] 7 = none ∧
    Contains sampleNoColonTask.Description (markerText 7) = false ∧
    buildTaskMap [sampleNoColonTask] 7 = some sampleNoColonTask := by
  refine ⟨by decide, by decide, by decide, by decide, by decide, by decide, by decide⟩

/-- C11, amended.  The task the forward pass treats as linked to an issue is the
last task, in fetched order, whose description parses (`extractGitHubIssueNumber`)
to the number of the issue, that number not being 0: it is the entry of the number
in `taskMap`, and for an issue that is no pull request the step of the pass is
`updateTodoistTask` on that task.  The issue is treated as unlinked, and the step is
`createTodoistTask`, exactly when its number is 0 or no fetched task's description
parses to its number. -/
theorem linked_task_selection_amended {σ : Type} (s : Service σ) (w : σ) (tasks : List Task)
    (issue : Issue) :
    (∀ (pre post : List Task) (t : Task), tasks = pre ++ t :: post →
      extractGitHubIssueNumber t.Description = issue.Number → issue.Number ≠ 0 →
      (∀ t2 ∈ post, extractGitHubIssueNumber t2.Description ≠ issue.Number) →
      buildTaskMap tasks issue.Number = some t ∧
      (issue.IsPullReq = false →
        (forwardStep s (buildTaskMap tasks) issue w).calls
          = (updateTodoistTask s t issue w).calls ∧
        (forwardStep s (buildTaskMap tasks) issue w).state
          = (updateTodoistTask s t issue w).state)) ∧
    (buildTaskMap tasks issue.Number = none ↔
      (issue.Number = 0 ∨
        ∀ t ∈ tasks, extractGitHubIssueNumber t.Description ≠ issue.Number)) ∧
    (issue.IsPullReq = false → buildTaskMap tasks issue.Number = none →
      (forwardStep s (buildTaskMap tasks) issue w).calls
        = (createTodoistTask s issue w).calls ∧
      (forwardStep s (buildTaskMap tasks) issue w).state
        = (createTodoistTask s issue w).state) := by
  refine ⟨?_, buildTaskMap_none_iff tasks issue.Number, ?_⟩
  · intro pre post t hsplit ht hnz hpost
    have hmap : buildTaskMap tasks issue.Number = some t := by
      rw [hsplit]
      exact buildTaskMap_last pre post t issue.Number ht hnz hpost
    refine ⟨hmap, fun hpr => ?_⟩
    unfold forwardStep
    simp only [hpr, Bool.false_eq_true, if_false, hmap]
    exact ⟨trivial, trivial⟩
  · intro hpr hnone
    unfold forwardStep
    simp only [hpr, Bool.false_eq_true, if_false, hnone]
    exact ⟨trivial, trivial⟩

theorem linked_task_selection_amended_witness :
    buildTaskMap sampleDuplicateRemote.tasks 7 =
      some (sampleTask "tB".toList "GitHub Issue #7: https://github.com/o/r/issues/7".toList
        false 1) :=
  ((linked_task_selection_amended sampleService sampleDuplicateRemote
    sampleDuplicateRemote.tasks (sampleIssue 7 "closed".toList [] false)).1
    [sampleTask "tA".toList "GitHub Issue #7: https://github.com/o/r/issues/7".toList false 1]
    []
    (sampleTask "tB".toList "GitHub Issue #7: https://github.com/o/r/issues/7".toList false 1)
    rfl (by decide) (by decide) (by decide)).1

/-! ## Label conversion -/

/-- The two replacements of `convertLabels` turn every space and every hyphen into
an underscore and leave the other characters alone. -/
theorem ReplaceAllChar_twice (x : Str) :
    ReplaceAllChar (ReplaceAllChar x ' ' '_') '-' '_' = x.map cleanChar := by
  unfold ReplaceAllChar
  rw [List.map_map]
  refine List.map_congr_left (fun c _ => ?_)
  by_cases h1 : c = ' '
  · subst h1
    decide
  · by_cases h2 : c = '-'
    · subst h2
      decide
    · simp [cleanChar, h1, h2]

theorem ToLower_length (lower : Char → Char) (l : Str) :
    (ToLower lower l).length = l.length := by
  unfold ToLower
  split <;> simp

theorem cleanChar_ne (c : Char) : cleanChar c ≠ ' ' ∧ cleanChar c ≠ '-' := by
  unfold cleanChar
  by_cases h : c = ' ' ∨ c = '-'
  · rw [if_pos h]
    exact ⟨by decide, by decide⟩
  · rw [if_neg h]
    exact ⟨fun e => h (Or.inl e), fun e => h (Or.inr e)⟩

/-- The cleaned form of a label is empty exactly when the label is. -/
theorem cleanLabel_eq_nil_iff (lower : Char → Char) (l : Str) :
    (ToLower lower l).map cleanChar = [] ↔ l = [] := by
  rw [List.map_eq_nil_iff, ← List.length_eq_zero, ToLower_length, List.length_eq_zero]

theorem convertLabels_eq (lower : Char → Char) : ∀ labels : List Str,
    convertLabels lower labels =
      (labels.filter (fun l => decide (l ≠ []))).map
        (fun l => (ToLower lower l).map cleanChar)
  | [] => rfl
  | l :: rest => by
    have ih := convertLabels_eq lower rest
    simp only [convertLabels, ReplaceAllChar_twice, ih]
    by_cases hl : l = []
    · subst hl
      have hc : ToLower lower [] = [] := by simp [ToLower]
      simp [hc, List.filter_cons]
    · have hc : ¬ (ToLower lower l).map cleanChar = [] :=
        fun e => hl ((cleanLabel_eq_nil_iff lower l).1 e)
      simp [hl, hc, List.filter_cons]

/-- C12. Label conversion: `convertLabels` returns, in the original order, each
non-empty label lower-cased (`strings.ToLower`, for any case tables `lower`) with
every space and every hyphen replaced by an underscore, the empty labels being
dropped; no output label is empty or contains a space or a hyphen, and the output
is not longer than the input. -/
theorem label_conversion (lower : Char → Char) (labels : List Str) :
    convertLabels lower labels =
      (labels.filter (fun l => decide (l ≠ []))).map
        (fun l => (ToLower lower l).map
          (fun c => if c = ' ' ∨ c = '-' then '_' else c)) ∧
    (∀ out ∈ convertLabels lower labels, out ≠ [] ∧ ' ' ∉ out ∧ '-' ∉ out) ∧
    (convertLabels lower labels).length ≤ labels.length := by
  have heq := convertLabels_eq lower labels
  refine ⟨heq, ?_, ?_⟩
  · intro out hout
    rw [heq] at hout
    obtain ⟨l, hl, rfl⟩ := List.mem_map.1 hout
    have hne : l ≠ [] := by simpa using (List.mem_filter.1 hl).2
    refine ⟨fun e => hne ((cleanLabel_eq_nil_iff lower l).1 e), ?_, ?_⟩
    · intro hmem
      obtain ⟨c, _, hc⟩ := List.mem_map.1 hmem
      exact (cleanChar_ne c).1 hc
    · intro hmem
      obtain ⟨c, _, hc⟩ := List.mem_map.1 hmem
      exact (cleanChar_ne c).2 hc
  · rw [heq, List.length_map]
    exact List.length_filter_le _ _

theorem label_conversion_witness :
    convertLabels Char.toLower ["Good First-Issue".toList, [], "-".toList, "BUG".toList]
      = ["good_first_issue".toList, "_".toList, "bug".toList] ∧
    ' ' ∉ "good_first_issue".toList :=
  ⟨(label_conversion Char.toLower
      ["Good First-Issue".toList, [], "-".toList, "BUG".toList]).1.trans (by decide),
    ((label_conversion Char.toLower
      ["Good First-Issue".toList, [], "-".toList, "BUG".toList]).2.1
      "good_first_issue".toList (by decide)).2.1⟩

end GithubTodoistSync
